import Mathlib

/-!
Verification development for the agrobot repository (src/automation.py).

The Python module drives a browser through selenium. We embed it shallowly:

* a spreadsheet cell is an `Option String` (`none` models a pandas missing
  value, i.e. NaN; `pd.notna` is `Option.isSome`); a row is an association
  list from column name to cell, mirroring a pandas Series where a key can
  be absent from the index altogether;
* every selenium wait/act step is resolved by an environment oracle
  `Env.attemptResult : Nat → Except Exc Unit`, consumed in program order
  (one tick per `WebDriverWait` based attempt); exceptions are the `Exc`
  type mirroring the selenium exception classes the code catches;
* the observable behaviour of a run is a trace of `Event`s (element
  attempts, sleeps, keystrokes, clicks, progress-callback invocations,
  driver teardown) accumulated in a state `St` together with the oracle
  cursor;
* `process_file` is modelled from the point where `validate_excel` has
  produced the dataframe: it takes the validated rows and the extracted
  credentials directly (reading the xlsx file itself is I/O outside the
  embedding); the credential-extraction loop of `validate_excel`
  (lines 61-75) is embedded separately as `extract_credentials`.
-/

namespace Agrobot

/-- Python exceptions relevant to src/automation.py: the selenium exception
classes named in the import list plus a catch-all for any other
`Exception` (the row-level handler catches all of them). -/
inductive Exc where
  | timeout
  | noSuchElement
  | stale
  | notInteractable
  | other (msg : String)
deriving DecidableEq, Repr

/-- String rendering of an exception, standing for Python str(e) as it is
interpolated into the row error message (line 243). -/
def Exc.toMsg : Exc → String
  | .timeout => "TimeoutException"
  | .noSuchElement => "NoSuchElementException"
  | .stale => "StaleElementReferenceException"
  | .notInteractable => "ElementNotInteractableException"
  | .other m => m

/-- Observable events of a run. `attempt` is one WebDriverWait-based try
against a locator; `sleep` is a time.sleep in milliseconds; `typeInto` marks
an invocation of safe_send_keys with its arguments; `sendKeys` is the actual
el.send_keys call; `progress` is one progress-callback invocation; `quit` is
the driver.quit teardown call. -/
inductive Event where
  | navigate (url : String)
  | attempt (locator : String)
  | sleep (ms : Nat)
  | clearField (locator : String)
  | sendKeys (locator : String) (text : String)
  | click (locator : String)
  | typeInto (locator : String) (text : String)
  | progress (current : Nat) (total : Nat) (label : String)
  | quit
deriving DecidableEq, Repr

/-- Tests whether an event is a progress-callback invocation. -/
def Event.isProgress : Event → Bool
  | .progress _ _ _ => true
  | _ => false

/-- Tests whether an event is the driver.quit teardown call. -/
def Event.isQuit : Event → Bool
  | .quit => true
  | _ => false

/-- Run state: the oracle cursor and the event trace so far. -/
structure St where
  tick : Nat
  events : List Event
deriving DecidableEq, Repr

/-- Appends one event to the trace. -/
def St.emit (s : St) (e : Event) : St :=
  { s with events := s.events ++ [e] }

/-- Initial state of a run. -/
def St.init : St := ⟨0, []⟩

/-- Environment oracle: outcome of the driver launch (get_chrome_driver),
of every successive wait/act attempt, and of driver.quit. -/
structure Env where
  launch : Except Exc Unit
  attemptResult : Nat → Except Exc Unit
  quitResult : Except Exc Unit

/-- Progress callback: current 1-based row, total rows, row label; a Python
callable that can itself raise. -/
abbrev Callback := Nat → Nat → String → Except Exc Unit

/-- Short-circuiting sequencing of two effectful computations (Python
statement sequencing: an uncaught exception aborts the rest). -/
def step {α β : Type} (x : Except Exc α × St) (f : α → St → Except Exc β × St) :
    Except Exc β × St :=
  match x with
  | (Except.ok a, s) => f a s
  | (Except.error e, s) => (Except.error e, s)

/-- One WebDriverWait-based attempt against a locator: consumes one oracle
tick and records the attempt. -/
def waitAttempt (env : Env) (loc : String) (s : St) : Except Exc Unit × St :=
  (env.attemptResult s.tick, ⟨s.tick + 1, s.events ++ [Event.attempt loc]⟩)

/-- Exception classes caught by safe_find_element (line 155):
TimeoutException, NoSuchElementException. -/
def findCaught : Exc → Bool
  | .timeout => true
  | .noSuchElement => true
  | _ => false

/-- Exception classes caught by safe_click and safe_send_keys
(lines 169, 186): StaleElementReferenceException,
ElementNotInteractableException, TimeoutException. -/
def clickCaught : Exc → Bool
  | .stale => true
  | .notInteractable => true
  | .timeout => true
  | _ => false

/-- RobustElementHandler.safe_find_element (lines 148-158): up to `retries`
attempts; a caught failure on a non-final attempt sleeps 1 second and
retries; the final failure is re-raised; an uncaught exception propagates at
once. Python returns None when retries = 0 (the for loop body never runs),
hence the `Option Unit` element. The timeout argument only shapes real
time, which the oracle abstracts. -/
def safe_find_element (env : Env) (loc : String) (timeout : Nat) :
    Nat → St → Except Exc (Option Unit) × St
  | 0, s => (Except.ok none, s)
  | n + 1, s =>
    match waitAttempt env loc s with
    | (Except.ok _, s1) => (Except.ok (some ()), s1)
    | (Except.error e, s1) =>
      if findCaught e then
        if n = 0 then (Except.error e, s1)
        else safe_find_element env loc timeout n (s1.emit (Event.sleep 1000))
      else (Except.error e, s1)

/-- RobustElementHandler.safe_click (lines 160-172): wait until clickable
then click, with the same bounded-retry shape as safe_find_element but the
click exception class set. The oracle outcome covers the wait and the click
together. -/
def safe_click (env : Env) (loc : String) (timeout : Nat) :
    Nat → St → Except Exc (Option Bool) × St
  | 0, s => (Except.ok none, s)
  | n + 1, s =>
    match waitAttempt env loc s with
    | (Except.ok _, s1) => (Except.ok (some true), s1.emit (Event.click loc))
    | (Except.error e, s1) =>
      if clickCaught e then
        if n = 0 then (Except.error e, s1)
        else safe_click env loc timeout n (s1.emit (Event.sleep 1000))
      else (Except.error e, s1)

/-- Retry loop of RobustElementHandler.safe_send_keys (lines 176-189): wait
until clickable, optionally clear (with the 0.1s settle sleep), then
el.send_keys(str(text)); caught failures back off 1 second and retry. -/
def sendAttempts (env : Env) (loc text : String) (clearFirst : Bool) (timeout : Nat) :
    Nat → St → Except Exc (Option Bool) × St
  | 0, s => (Except.ok none, s)
  | n + 1, s =>
    match waitAttempt env loc s with
    | (Except.ok _, s1) =>
      let s2 := if clearFirst then (s1.emit (Event.clearField loc)).emit (Event.sleep 100) else s1
      (Except.ok (some true), s2.emit (Event.sendKeys loc text))
    | (Except.error e, s1) =>
      if clickCaught e then
        if n = 0 then (Except.error e, s1)
        else sendAttempts env loc text clearFirst timeout n (s1.emit (Event.sleep 1000))
      else (Except.error e, s1)

/-- RobustElementHandler.safe_send_keys (lines 174-189). The `typeInto`
event marks the invocation itself, with the locator and the text passed. -/
def safe_send_keys (env : Env) (loc text : String) (clearFirst : Bool)
    (timeout retries : Nat) (s : St) : Except Exc (Option Bool) × St :=
  sendAttempts env loc text clearFirst timeout retries (s.emit (Event.typeInto loc text))

/-- RobustElementHandler.wait_for_page_load (lines 191-200): one readiness
wait; success sleeps the 0.5s settle delay and reports true, a timeout
reports false without raising, any other exception propagates. -/
def wait_for_page_load (env : Env) (s : St) : Except Exc Bool × St :=
  match waitAttempt env "documentReady" s with
  | (Except.ok _, s1) => (Except.ok true, s1.emit (Event.sleep 500))
  | (Except.error Exc.timeout, s1) => (Except.ok false, s1)
  | (Except.error e, s1) => (Except.error e, s1)

/-- driver.get on the target url (line 216): consumes one oracle tick; a
failure is an uncaught exception of the run. -/
def navigate (env : Env) (url : String) (s : St) : Except Exc Unit × St :=
  match waitAttempt env url s with
  | (Except.ok _, s1) => (Except.ok (), s1.emit (Event.navigate url))
  | (Except.error e, s1) => (Except.error e, s1)

/-- A spreadsheet cell: `none` is a pandas missing value (NaN). Cell
values are taken post-sanitization as strings. -/
abbrev Cell := Option String

/-- One spreadsheet row: an association list from column name to cell. A
column can be absent from the list altogether, mirroring a Series whose
index lacks that key. -/
abbrev Row := List (String × Cell)

/-- Python row.get(col) without default: None when the column is absent,
otherwise the cell (itself possibly NaN). Both the absent column and the
NaN cell land on `none`, exactly as both fail pd.notna. -/
def rowGet (r : Row) (col : String) : Option String :=
  match r.lookup col with
  | none => none
  | some c => c

/-- REQUIRED_COLUMNS of src/automation.py (lines 20-25). -/
def REQUIRED_COLUMNS : List String :=
  ["ProductName", "ProductCIBCode", "ProductRegDate",
   "InsecticideRegistrationValidUpto", "ManufacturerName",
   "PrincipalCerificateNo", "PrincipleCertificateIssueDate",
   "PrincipleCertificateValidUpto", "RegistrationNo", "Password"]

/-- FIELD_MAPPINGS of src/automation.py (lines 27-36), in insertion order:
web form field id to excel column name. -/
def FIELD_MAPPINGS : List (String × String) :=
  [("ProductName",            "ProductName"),
   ("ProductCIBCode",         "ProductCIBCode"),
   ("ProductRegDate",         "ProductRegDate"),
   ("ProductImpterManurName", "ManufacturerName"),
   ("PrincipleCertNo",        "PrincipalCerificateNo"),
   ("PrincipleCertIssueDate", "PrincipleCertificateIssueDate"),
   ("PrincipleCertValidUpto", "PrincipleCertificateValidUpto"),
   ("ProductValidityDate",    "InsecticideRegistrationValidUpto")]

/-- Python str.lower, implemented characterwise so that it evaluates by
plain reduction. -/
def pyLower (s : String) : String :=
  String.mk (s.data.map Char.toLower)

/-- Lines 233-235: field_value = str(val) if pd.notna(val) else "" and the
guard field_value and field_value.lower() != "nan". The result is the text
actually typed, or `none` when the field is skipped. -/
def fieldValue (c : Option String) : Option String :=
  match c with
  | none => none
  | some v =>
    if v = "" then none
    else if pyLower v = "nan" then none
    else some v

/-- Line 230: product_name = str(row.get(ProductName, f"Row {idx + 1}")).
pandas Series.get falls back to the default only when the key is absent
from the index; a present-but-NaN value is returned as NaN, and str(nan)
is the text nan. -/
def productLabel (row : Row) (idx : Nat) : String :=
  match row.lookup "ProductName" with
  | none => "Row " ++ toString (idx + 1)
  | some none => "nan"
  | some (some v) => v

/-- Python str.strip: drops leading and trailing whitespace. Implemented
over the character list so that it evaluates by plain reduction. -/
def pyStrip (s : String) : String :=
  String.mk (((s.data.dropWhile Char.isWhitespace).reverse.dropWhile
    Char.isWhitespace).reverse)

/-- Credential-field test of validate_excel (lines 63, 65): pd.notna(v) and
the stripped str(v) neither empty nor the text nan; the retained credential
is the stripped string. -/
def credVal (c : Option String) : Option String :=
  match c with
  | none => none
  | some v =>
    if pyStrip v = "" then none
    else if pyStrip v = "nan" then none
    else some (pyStrip v)

/-- Credential scan loop of validate_excel (lines 61-68): each row
overwrites the accumulated RegistrationNo and Password with its own
non-empty values; the loop breaks at the first row after which both are
set. -/
def scanCreds : List Row → Option String → Option String → Option String × Option String
  | [], r, p => (r, p)
  | row :: rest, r, p =>
    let r2 := match credVal (rowGet row "RegistrationNo") with
      | some v => some v
      | none => r
    let p2 := match credVal (rowGet row "Password") with
      | some v => some v
      | none => p
    if r2.isSome && p2.isSome then (r2, p2) else scanCreds rest r2 p2

/-- Credential extraction of validate_excel (lines 61-75): the scan result,
demanding both fields found (otherwise validate_excel returns an error
message and no credentials). -/
def extract_credentials (rows : List Row) : Option (String × String) :=
  match scanCreds rows none none with
  | (some r, some p) => some (r, p)
  | _ => none

/-- Add-row submit control locator (line 227). -/
def add_btn : String := "div.col-sm-8 button.btn.btn-primary.btn-block"

/-- Target url (line 216). -/
def target_url : String :=
  "https://onlinedbtagriservice.bihar.gov.in/Licence/LicenceForm/ProductDetails"

/-- Login submit control locator (line 222). -/
def login_btn : String := "#loginForm > form > button:nth-child(4)"

/-- Field-fill loop of one row (lines 232-236): for each mapping entry in
order, type the value when the policy admits it, else skip the field; the
first uncaught failure aborts the rest of the row. -/
def fillFields (env : Env) (row : Row) : List (String × String) → St → Except Exc Unit × St
  | [], s => (Except.ok (), s)
  | (webField, excelCol) :: rest, s =>
    match fieldValue (rowGet row excelCol) with
    | some v =>
      match safe_send_keys env webField v true 10 3 s with
      | (Except.ok _, s1) => fillFields env row rest s1
      | (Except.error e, s1) => (Except.error e, s1)
    | none => fillFields env row rest s

/-- Try-block body of one row iteration (lines 232-240): fill the mapped
fields, click the add control, then the 0.4s settle sleep. -/
def rowTry (env : Env) (row : Row) (s : St) : Except Exc Unit × St :=
  match fillFields env row FIELD_MAPPINGS s with
  | (Except.ok _, s1) =>
    match safe_click env add_btn 10 3 s1 with
    | (Except.ok _, s2) => (Except.ok (), s2.emit (Event.sleep 400))
    | (Except.error e, s2) => (Except.error e, s2)
  | (Except.error e, s1) => (Except.error e, s1)

/-- Error message recorded for a failed row (line 243). -/
def rowErrMsg (idx : Nat) (label : String) (e : Exc) : String :=
  "Row " ++ toString (idx + 1) ++ " (" ++ label ++ "): " ++ e.toMsg

/-- One full row iteration (lines 229-249): try the row, convert success
into success_count += 1 and any exception into an error_list entry, then
unconditionally (finally) invoke the progress callback when present; an
exception raised by the callback itself propagates. -/
def processRow (env : Env) (cb : Option Callback) (total : Nat) (row : Row) (idx : Nat)
    (acc : Nat × List String) (s : St) : Except Exc (Nat × List String) × St :=
  let label := productLabel row idx
  match rowTry env row s with
  | (r, s1) =>
    let acc2 := match r with
      | Except.ok _ => (acc.1 + 1, acc.2)
      | Except.error e => (acc.1, acc.2 ++ [rowErrMsg idx label e])
    match cb with
    | none => (Except.ok acc2, s1)
    | some f =>
      let s2 := s1.emit (Event.progress (idx + 1) total label)
      match f (idx + 1) total label with
      | Except.ok _ => (Except.ok acc2, s2)
      | Except.error e => (Except.error e, s2)

/-- The row loop of process_file (lines 229-249), idx being the 0-based
dataframe index of the head row. -/
def rowLoop (env : Env) (cb : Option Callback) (total : Nat) :
    List Row → Nat → (Nat × List String) → St → Except Exc (Nat × List String) × St
  | [], _, acc, s => (Except.ok acc, s)
  | row :: rest, idx, acc, s =>
    match processRow env cb total row idx acc s with
    | (Except.ok acc2, s1) => rowLoop env cb total rest (idx + 1) acc2 s1
    | (Except.error e, s1) => (Except.error e, s1)

/-- Navigation and login phase of process_file (lines 216-225): open the
url, best-effort page wait, find the login form, type both credentials,
click login, best-effort page wait, then find the post-login marker field
ProductCIBCode with the extended 45s timeout. -/
def loginPhase (env : Env) (reg_no password : String) (s : St) : Except Exc Unit × St :=
  step (navigate env target_url s) fun _ s =>
  step (wait_for_page_load env s) fun _ s =>
  step (safe_find_element env "loginForm" 30 3 s) fun _ s =>
  step (safe_send_keys env "RegistrationNo" reg_no true 30 3 s) fun _ s =>
  step (safe_send_keys env "Password" password true 30 3 s) fun _ s =>
  step (safe_click env login_btn 30 3 s) fun _ s =>
  step (wait_for_page_load env s) fun _ s =>
  step (safe_find_element env "ProductCIBCode" 45 3 s) fun _ s =>
  (Except.ok (), s)

/-- Teardown of process_file (lines 251-255): driver.quit in a try/except
that swallows any exception; the quit invocation is recorded either way. -/
def teardown (env : Env) (s : St) : St :=
  match env.quitResult with
  | Except.ok _ => s.emit Event.quit
  | Except.error _ => s.emit Event.quit

/-- process_file (lines 203-257), from the point where validate_excel has
produced the dataframe rows and the credentials: launch the driver (a
launch failure propagates before the try block, so without teardown), run
the login phase and the row loop under the teardown guarantee, and return
(success_count, error_list) when no exception escaped. -/
def process_file (env : Env) (rows : List Row) (reg_no password : String)
    (cb : Option Callback) : Except Exc (Nat × List String) × St :=
  match env.launch with
  | Except.error e => (Except.error e, St.init)
  | Except.ok _ =>
    match step (loginPhase env reg_no password St.init)
        (fun _ s => rowLoop env cb rows.length rows 0 (0, []) s) with
    | (res, s) => (res, teardown env s)

/-- Environment where every external operation succeeds. -/
def allOkEnv : Env :=
  { launch := Except.ok ()
    attemptResult := fun _ => Except.ok ()
    quitResult := Except.ok () }

/-- Environment where every wait/act attempt fails with the given
exception. -/
def constFailEnv (e : Exc) : Env :=
  { launch := Except.ok ()
    attemptResult := fun _ => Except.error e
    quitResult := Except.ok () }

/-- Environment where the first m attempts succeed and every later attempt
times out. -/
def prefixOkEnv (m : Nat) : Env :=
  { launch := Except.ok ()
    attemptResult := fun k => if k < m then Except.ok () else Except.error Exc.timeout
    quitResult := Except.ok () }

/-- Environment where the first m attempts fail with the given exception
and every later attempt succeeds. -/
def failPrefixEnv (m : Nat) (e : Exc) : Env :=
  { launch := Except.ok ()
    attemptResult := fun k => if k < m then Except.error e else Except.ok ()
    quitResult := Except.ok () }

/-- Environment where the driver launch itself fails. -/
def launchFailEnv (e : Exc) : Env :=
  { launch := Except.error e
    attemptResult := fun _ => Except.ok ()
    quitResult := Except.ok () }

/-- Progress-callback invocations of a trace. -/
def progressEvents (es : List Event) : List Event :=
  es.filter fun ev => ev.isProgress

/-- Teardown invocations of a trace. -/
def quitEvents (es : List Event) : List Event :=
  es.filter fun ev => ev.isQuit

/-- A trace fragment with neither progress-callback nor teardown events. -/
def PlainEvs (δ : List Event) : Prop :=
  ∀ ev ∈ δ, ev.isProgress = false ∧ ev.isQuit = false

/-- A trace fragment with no safe_send_keys invocation marker. -/
def NoTypeInto (δ : List Event) : Prop :=
  ∀ w v, Event.typeInto w v ∉ δ

/-- A computation step that appended exactly δ to the trace. -/
def Emits (s s' : St) (δ : List Event) : Prop :=
  s'.events = s.events ++ δ

lemma emits_trans {s0 s1 s2 : St} {δ1 δ2 : List Event}
    (h1 : Emits s0 s1 δ1) (h2 : Emits s1 s2 δ2) : Emits s0 s2 (δ1 ++ δ2) := by
  unfold Emits at *
  rw [h2, h1, List.append_assoc]

lemma plainEvs_nil : PlainEvs [] := by
  intro ev h
  cases h

lemma plainEvs_append {δ1 δ2 : List Event} (h1 : PlainEvs δ1) (h2 : PlainEvs δ2) :
    PlainEvs (δ1 ++ δ2) := by
  intro ev h
  rcases List.mem_append.mp h with h | h
  · exact h1 ev h
  · exact h2 ev h

lemma noTypeInto_nil : NoTypeInto [] := by
  intro w v h
  cases h

lemma noTypeInto_append {δ1 δ2 : List Event} (h1 : NoTypeInto δ1) (h2 : NoTypeInto δ2) :
    NoTypeInto (δ1 ++ δ2) := by
  intro w v h
  rcases List.mem_append.mp h with h | h
  · exact h1 w v h
  · exact h2 w v h

lemma progressEvents_append (es ds : List Event) :
    progressEvents (es ++ ds) = progressEvents es ++ progressEvents ds := by
  simp [progressEvents, List.filter_append]

lemma quitEvents_append (es ds : List Event) :
    quitEvents (es ++ ds) = quitEvents es ++ quitEvents ds := by
  simp [quitEvents, List.filter_append]

lemma progressEvents_of_plain {δ : List Event} (h : PlainEvs δ) :
    progressEvents δ = [] := by
  simp only [progressEvents, List.filter_eq_nil_iff]
  intro ev hev
  simp [(h ev hev).1]

lemma quitEvents_of_plain {δ : List Event} (h : PlainEvs δ) :
    quitEvents δ = [] := by
  simp only [quitEvents, List.filter_eq_nil_iff]
  intro ev hev
  simp [(h ev hev).2]

/-- The retry loop of safe_find_element appends only attempt and backoff
events, whatever the oracle answers. -/
lemma safe_find_element_emits (env : Env) (loc : String) (t : Nat) :
    ∀ (n : Nat) (s : St), ∃ δ,
      Emits s (safe_find_element env loc t n s).2 δ ∧ PlainEvs δ ∧ NoTypeInto δ := by
  intro n
  induction n with
  | zero =>
    intro s
    exact ⟨[], by simp [Emits, safe_find_element], plainEvs_nil, noTypeInto_nil⟩
  | succ m ih =>
    intro s
    have hplain : PlainEvs [Event.attempt loc] := by
      intro ev hev
      simp at hev
      subst hev
      exact ⟨rfl, rfl⟩
    have hnt : NoTypeInto [Event.attempt loc] := by
      intro w v hv
      simp at hv
    cases h : env.attemptResult s.tick with
    | ok u =>
      refine ⟨[Event.attempt loc], ?_, hplain, hnt⟩
      simp [Emits, safe_find_element, waitAttempt, h]
    | error e =>
      by_cases hc : findCaught e
      · by_cases hm : m = 0
        · subst hm
          refine ⟨[Event.attempt loc], ?_, hplain, hnt⟩
          simp [Emits, safe_find_element, waitAttempt, h, hc]
        · have hplain2 : PlainEvs [Event.attempt loc, Event.sleep 1000] := by
            intro ev hev
            rcases List.mem_cons.mp hev with rfl | hev
            · exact ⟨rfl, rfl⟩
            · simp at hev
              subst hev
              exact ⟨rfl, rfl⟩
          have hnt2 : NoTypeInto [Event.attempt loc, Event.sleep 1000] := by
            intro w v hv
            simp at hv
          obtain ⟨δ, hδ, hp, hn⟩ :=
            ih ⟨s.tick + 1, (s.events ++ [Event.attempt loc]) ++ [Event.sleep 1000]⟩
          refine ⟨[Event.attempt loc, Event.sleep 1000] ++ δ, ?_,
            plainEvs_append hplain2 hp, noTypeInto_append hnt2 hn⟩
          have hstep : safe_find_element env loc t (m + 1) s =
              safe_find_element env loc t m
                ⟨s.tick + 1, (s.events ++ [Event.attempt loc]) ++ [Event.sleep 1000]⟩ := by
            simp [safe_find_element, waitAttempt, h, hc, hm, St.emit]
          rw [Emits, hstep]
          rw [hδ]
          simp [Emits]
      · refine ⟨[Event.attempt loc], ?_, hplain, hnt⟩
        simp [Emits, safe_find_element, waitAttempt, h, hc]

/-- The retry loop of safe_click appends only attempt, click and backoff
events. -/
lemma safe_click_emits (env : Env) (loc : String) (t : Nat) :
    ∀ (n : Nat) (s : St), ∃ δ,
      Emits s (safe_click env loc t n s).2 δ ∧ PlainEvs δ ∧ NoTypeInto δ := by
  intro n
  induction n with
  | zero =>
    intro s
    exact ⟨[], by simp [Emits, safe_click], plainEvs_nil, noTypeInto_nil⟩
  | succ m ih =>
    intro s
    cases h : env.attemptResult s.tick with
    | ok u =>
      refine ⟨[Event.attempt loc, Event.click loc], ?_, ?_, ?_⟩
      · simp [Emits, safe_click, waitAttempt, h, St.emit]
      · intro ev hev
        rcases List.mem_cons.mp hev with rfl | hev
        · exact ⟨rfl, rfl⟩
        · simp at hev
          subst hev
          exact ⟨rfl, rfl⟩
      · intro w v hv
        simp at hv
    | error e =>
      have hplain : PlainEvs [Event.attempt loc] := by
        intro ev hev
        simp at hev
        subst hev
        exact ⟨rfl, rfl⟩
      have hnt : NoTypeInto [Event.attempt loc] := by
        intro w v hv
        simp at hv
      by_cases hc : clickCaught e
      · by_cases hm : m = 0
        · subst hm
          refine ⟨[Event.attempt loc], ?_, hplain, hnt⟩
          simp [Emits, safe_click, waitAttempt, h, hc]
        · have hplain2 : PlainEvs [Event.attempt loc, Event.sleep 1000] := by
            intro ev hev
            rcases List.mem_cons.mp hev with rfl | hev
            · exact ⟨rfl, rfl⟩
            · simp at hev
              subst hev
              exact ⟨rfl, rfl⟩
          have hnt2 : NoTypeInto [Event.attempt loc, Event.sleep 1000] := by
            intro w v hv
            simp at hv
          obtain ⟨δ, hδ, hp, hn⟩ :=
            ih ⟨s.tick + 1, (s.events ++ [Event.attempt loc]) ++ [Event.sleep 1000]⟩
          refine ⟨[Event.attempt loc, Event.sleep 1000] ++ δ, ?_,
            plainEvs_append hplain2 hp, noTypeInto_append hnt2 hn⟩
          have hstep : safe_click env loc t (m + 1) s =
              safe_click env loc t m
                ⟨s.tick + 1, (s.events ++ [Event.attempt loc]) ++ [Event.sleep 1000]⟩ := by
            simp [safe_click, waitAttempt, h, hc, hm, St.emit]
          rw [Emits, hstep]
          rw [hδ]
          simp [Emits]
      · refine ⟨[Event.attempt loc], ?_, hplain, hnt⟩
        simp [Emits, safe_click, waitAttempt, h, hc]

/-- The retry loop of safe_send_keys appends only attempt, clear, settle,
keystroke and backoff events; notably no invocation marker. -/
lemma sendAttempts_emits (env : Env) (loc text : String) (cf : Bool) (t : Nat) :
    ∀ (n : Nat) (s : St), ∃ δ,
      Emits s (sendAttempts env loc text cf t n s).2 δ ∧ PlainEvs δ ∧ NoTypeInto δ := by
  intro n
  induction n with
  | zero =>
    intro s
    exact ⟨[], by simp [Emits, sendAttempts], plainEvs_nil, noTypeInto_nil⟩
  | succ m ih =>
    intro s
    cases h : env.attemptResult s.tick with
    | ok u =>
      cases cf with
      | false =>
        refine ⟨[Event.attempt loc, Event.sendKeys loc text], ?_, ?_, ?_⟩
        · simp [Emits, sendAttempts, waitAttempt, h, St.emit]
        · intro ev hev
          rcases List.mem_cons.mp hev with rfl | hev
          · exact ⟨rfl, rfl⟩
          · simp at hev
            subst hev
            exact ⟨rfl, rfl⟩
        · intro w v hv
          simp at hv
      | true =>
        refine ⟨[Event.attempt loc, Event.clearField loc, Event.sleep 100,
          Event.sendKeys loc text], ?_, ?_, ?_⟩
        · simp [Emits, sendAttempts, waitAttempt, h, St.emit]
        · intro ev hev
          rcases List.mem_cons.mp hev with rfl | hev
          · exact ⟨rfl, rfl⟩
          rcases List.mem_cons.mp hev with rfl | hev
          · exact ⟨rfl, rfl⟩
          rcases List.mem_cons.mp hev with rfl | hev
          · exact ⟨rfl, rfl⟩
          simp at hev
          subst hev
          exact ⟨rfl, rfl⟩
        · intro w v hv
          simp at hv
    | error e =>
      have hplain : PlainEvs [Event.attempt loc] := by
        intro ev hev
        simp at hev
        subst hev
        exact ⟨rfl, rfl⟩
      have hnt : NoTypeInto [Event.attempt loc] := by
        intro w v hv
        simp at hv
      by_cases hc : clickCaught e
      · by_cases hm : m = 0
        · subst hm
          refine ⟨[Event.attempt loc], ?_, hplain, hnt⟩
          simp [Emits, sendAttempts, waitAttempt, h, hc]
        · have hplain2 : PlainEvs [Event.attempt loc, Event.sleep 1000] := by
            intro ev hev
            rcases List.mem_cons.mp hev with rfl | hev
            · exact ⟨rfl, rfl⟩
            · simp at hev
              subst hev
              exact ⟨rfl, rfl⟩
          have hnt2 : NoTypeInto [Event.attempt loc, Event.sleep 1000] := by
            intro w v hv
            simp at hv
          obtain ⟨δ, hδ, hp, hn⟩ :=
            ih ⟨s.tick + 1, (s.events ++ [Event.attempt loc]) ++ [Event.sleep 1000]⟩
          refine ⟨[Event.attempt loc, Event.sleep 1000] ++ δ, ?_,
            plainEvs_append hplain2 hp, noTypeInto_append hnt2 hn⟩
          have hstep : sendAttempts env loc text cf t (m + 1) s =
              sendAttempts env loc text cf t m
                ⟨s.tick + 1, (s.events ++ [Event.attempt loc]) ++ [Event.sleep 1000]⟩ := by
            simp [sendAttempts, waitAttempt, h, hc, hm, St.emit]
          rw [Emits, hstep]
          rw [hδ]
          simp [Emits]
      · refine ⟨[Event.attempt loc], ?_, hplain, hnt⟩
        simp [Emits, sendAttempts, waitAttempt, h, hc]

/-- safe_send_keys appends its invocation marker followed by a marker-free
fragment; in particular a typeInto event of the call is exactly the pair of
the passed locator and text. -/
lemma safe_send_keys_emits (env : Env) (loc text : String) (cf : Bool) (t n : Nat) (s : St) :
    ∃ δ, Emits s (safe_send_keys env loc text cf t n s).2 δ ∧ PlainEvs δ ∧
      ∀ w v, Event.typeInto w v ∈ δ ↔ w = loc ∧ v = text := by
  obtain ⟨δ, hδ, hp, hn⟩ := sendAttempts_emits env loc text cf t n (s.emit (Event.typeInto loc text))
  refine ⟨Event.typeInto loc text :: δ, ?_, ?_, ?_⟩
  · have : Emits s (s.emit (Event.typeInto loc text)) [Event.typeInto loc text] := by
      simp [Emits, St.emit]
    have := emits_trans this hδ
    simpa [safe_send_keys] using this
  · intro ev hev
    rcases List.mem_cons.mp hev with rfl | hev
    · exact ⟨rfl, rfl⟩
    · exact hp ev hev
  · intro w v
    constructor
    · intro hv
      rcases List.mem_cons.mp hv with hv | hv
      · cases hv
        exact ⟨rfl, rfl⟩
      · exact absurd hv (hn w v)
    · rintro ⟨rfl, rfl⟩
      exact List.mem_cons_self _ _

/-- wait_for_page_load appends only the readiness attempt and the settle
sleep. -/
lemma wait_for_page_load_emits (env : Env) (s : St) :
    ∃ δ, Emits s (wait_for_page_load env s).2 δ ∧ PlainEvs δ ∧ NoTypeInto δ := by
  cases h : env.attemptResult s.tick with
  | ok u =>
    refine ⟨[Event.attempt "documentReady", Event.sleep 500], ?_, ?_, ?_⟩
    · simp [Emits, wait_for_page_load, waitAttempt, h, St.emit]
    · intro ev hev
      rcases List.mem_cons.mp hev with rfl | hev
      · exact ⟨rfl, rfl⟩
      · simp at hev
        subst hev
        exact ⟨rfl, rfl⟩
    · intro w v hv
      simp at hv
  | error e =>
    refine ⟨[Event.attempt "documentReady"], ?_, ?_, ?_⟩
    · cases e <;> simp [Emits, wait_for_page_load, waitAttempt, h]
    · intro ev hev
      simp at hev
      subst hev
      exact ⟨rfl, rfl⟩
    · intro w v hv
      simp at hv

/-- navigate appends only the attempt and the navigation event. -/
lemma navigate_emits (env : Env) (url : String) (s : St) :
    ∃ δ, Emits s (navigate env url s).2 δ ∧ PlainEvs δ ∧ NoTypeInto δ := by
  cases h : env.attemptResult s.tick with
  | ok u =>
    refine ⟨[Event.attempt url, Event.navigate url], ?_, ?_, ?_⟩
    · simp [Emits, navigate, waitAttempt, h, St.emit]
    · intro ev hev
      rcases List.mem_cons.mp hev with rfl | hev
      · exact ⟨rfl, rfl⟩
      · simp at hev
        subst hev
        exact ⟨rfl, rfl⟩
    · intro w v hv
      simp at hv
  | error e =>
    refine ⟨[Event.attempt url], ?_, ?_, ?_⟩
    · simp [Emits, navigate, waitAttempt, h]
    · intro ev hev
      simp at hev
      subst hev
      exact ⟨rfl, rfl⟩
    · intro w v hv
      simp at hv


/-- Structure of the trace fragment of one fillFields run: only plain
events; a typeInto marker always stems from a mapping entry whose source
value passed the inclusion policy and carries exactly that value; and when
the run completed without exception, every mapping entry whose source value
passed the policy did get its marker. -/
lemma fillFields_emits (env : Env) (row : Row) :
    ∀ (l : List (String × String)) (s : St), ∃ δ,
      Emits s (fillFields env row l s).2 δ ∧ PlainEvs δ ∧
      (∀ w v, Event.typeInto w v ∈ δ →
        ∃ c, (w, c) ∈ l ∧ fieldValue (rowGet row c) = some v) ∧
      ((fillFields env row l s).1 = Except.ok () →
        ∀ w c, (w, c) ∈ l → ∀ v, fieldValue (rowGet row c) = some v →
          Event.typeInto w v ∈ δ) := by
  intro l
  induction l with
  | nil =>
    intro s
    refine ⟨[], by simp [Emits, fillFields], plainEvs_nil, ?_, ?_⟩
    · intro w v hv
      cases hv
    · intro _ w c hc
      simp at hc
  | cons p rest ih =>
    intro s
    obtain ⟨w0, c0⟩ := p
    cases hfv : fieldValue (rowGet row c0) with
    | none =>
      obtain ⟨δ, hδ, hp, hA, hB⟩ := ih s
      have hunf : fillFields env row ((w0, c0) :: rest) s = fillFields env row rest s := by
        simp [fillFields, hfv]
      refine ⟨δ, by rw [Emits, hunf]; exact hδ, hp, ?_, ?_⟩
      · intro w v hv
        obtain ⟨c, hc, hval⟩ := hA w v hv
        exact ⟨c, List.mem_cons_of_mem _ hc, hval⟩
      · intro hok w c hc v hval
        rcases List.mem_cons.mp hc with hc | hc
        · cases hc
          rw [hfv] at hval
          cases hval
        · rw [hunf] at hok
          exact hB hok w c hc v hval
    | some v0 =>
      obtain ⟨δ1, hδ1, hp1, hchar⟩ := safe_send_keys_emits env w0 v0 true 10 3 s
      cases hsend : safe_send_keys env w0 v0 true 10 3 s with
      | mk r1 s1 =>
        rw [hsend] at hδ1
        cases r1 with
        | ok u =>
          obtain ⟨δ2, hδ2, hp2, hA, hB⟩ := ih s1
          have hunf : fillFields env row ((w0, c0) :: rest) s = fillFields env row rest s1 := by
            simp [fillFields, hfv, hsend]
          have hnt1 : ∀ w v, Event.typeInto w v ∈ δ1 → w = w0 ∧ v = v0 :=
            fun w v hv => (hchar w v).mp hv
          refine ⟨δ1 ++ δ2, ?_, plainEvs_append hp1 hp2, ?_, ?_⟩
          · rw [Emits, hunf]
            exact emits_trans hδ1 hδ2
          · intro w v hv
            rcases List.mem_append.mp hv with hv | hv
            · obtain ⟨rfl, rfl⟩ := hnt1 w v hv
              exact ⟨c0, List.mem_cons_self _ _, hfv⟩
            · obtain ⟨c, hc, hval⟩ := hA w v hv
              exact ⟨c, List.mem_cons_of_mem _ hc, hval⟩
          · intro hok w c hc v hval
            rcases List.mem_cons.mp hc with hc | hc
            · simp only [Prod.mk.injEq] at hc
              obtain ⟨rfl, rfl⟩ := hc
              rw [hfv] at hval
              injection hval with hv
              exact List.mem_append.mpr (Or.inl ((hchar w v).mpr ⟨rfl, hv.symm⟩))
            · rw [hunf] at hok
              exact List.mem_append.mpr (Or.inr (hB hok w c hc v hval))
        | error e =>
          have hunf : fillFields env row ((w0, c0) :: rest) s = (Except.error e, s1) := by
            simp [fillFields, hfv, hsend]
          refine ⟨δ1, by rw [Emits, hunf]; exact hδ1, hp1, ?_, ?_⟩
          · intro w v hv
            obtain ⟨rfl, rfl⟩ := (hchar w v).mp hv
            exact ⟨c0, List.mem_cons_self _ _, hfv⟩
          · intro hok
            rw [hunf] at hok
            cases hok

/-- rowTry appends only plain events. -/
lemma rowTry_emits (env : Env) (row : Row) (s : St) :
    ∃ δ, Emits s (rowTry env row s).2 δ ∧ PlainEvs δ := by
  obtain ⟨δ1, hδ1, hp1, _, _⟩ := fillFields_emits env row FIELD_MAPPINGS s
  cases hfill : fillFields env row FIELD_MAPPINGS s with
  | mk r1 s1 =>
    rw [hfill] at hδ1
    cases r1 with
    | ok u =>
      obtain ⟨δ2, hδ2, hp2, _⟩ := safe_click_emits env add_btn 10 3 s1
      cases hclick : safe_click env add_btn 10 3 s1 with
      | mk r2 s2 =>
        rw [hclick] at hδ2
        cases r2 with
        | ok u2 =>
          refine ⟨(δ1 ++ δ2) ++ [Event.sleep 400], ?_, ?_⟩
          · have h12 := emits_trans hδ1 hδ2
            have h3 : Emits s2 (s2.emit (Event.sleep 400)) [Event.sleep 400] := by
              simp [Emits, St.emit]
            have := emits_trans h12 h3
            have hunf : rowTry env row s = (Except.ok (), s2.emit (Event.sleep 400)) := by
              simp [rowTry, hfill, hclick]
            rw [Emits, hunf]
            exact this
          · refine plainEvs_append (plainEvs_append hp1 hp2) ?_
            intro ev hev
            simp at hev
            subst hev
            exact ⟨rfl, rfl⟩
        | error e =>
          have hunf : rowTry env row s = (Except.error e, s2) := by
            simp [rowTry, hfill, hclick]
          exact ⟨δ1 ++ δ2, by rw [Emits, hunf]; exact emits_trans hδ1 hδ2,
            plainEvs_append hp1 hp2⟩
    | error e =>
      have hunf : rowTry env row s = (Except.error e, s1) := by
        simp [rowTry, hfill]
      exact ⟨δ1, by rw [Emits, hunf]; exact hδ1, hp1⟩

/-- Sequencing preserves the plain-fragment property. -/
lemma step_emits {a b : Type} (x : Except Exc a × St) (f : a → St → Except Exc b × St) (s : St)
    (hx : ∃ δ, Emits s x.2 δ ∧ PlainEvs δ)
    (hf : ∀ u s1, ∃ δ, Emits s1 (f u s1).2 δ ∧ PlainEvs δ) :
    ∃ δ, Emits s (step x f).2 δ ∧ PlainEvs δ := by
  obtain ⟨δ1, hδ1, hp1⟩ := hx
  cases x with
  | mk r s1 =>
    cases r with
    | ok u =>
      obtain ⟨δ2, hδ2, hp2⟩ := hf u s1
      exact ⟨δ1 ++ δ2, emits_trans hδ1 hδ2, plainEvs_append hp1 hp2⟩
    | error e =>
      exact ⟨δ1, hδ1, hp1⟩

/-- loginPhase appends only plain events. -/
lemma loginPhase_emits (env : Env) (reg pwd : String) (s : St) :
    ∃ δ, Emits s (loginPhase env reg pwd s).2 δ ∧ PlainEvs δ := by
  unfold loginPhase
  refine step_emits _ _ _ ?_ fun u s => ?_
  · obtain ⟨δ, h1, h2, _⟩ := navigate_emits env target_url s
    exact ⟨δ, h1, h2⟩
  refine step_emits _ _ _ ?_ fun u s => ?_
  · obtain ⟨δ, h1, h2, _⟩ := wait_for_page_load_emits env s
    exact ⟨δ, h1, h2⟩
  refine step_emits _ _ _ ?_ fun u s => ?_
  · obtain ⟨δ, h1, h2, _⟩ := safe_find_element_emits env "loginForm" 30 3 s
    exact ⟨δ, h1, h2⟩
  refine step_emits _ _ _ ?_ fun u s => ?_
  · obtain ⟨δ, h1, h2, _⟩ := safe_send_keys_emits env "RegistrationNo" reg true 30 3 s
    exact ⟨δ, h1, h2⟩
  refine step_emits _ _ _ ?_ fun u s => ?_
  · obtain ⟨δ, h1, h2, _⟩ := safe_send_keys_emits env "Password" pwd true 30 3 s
    exact ⟨δ, h1, h2⟩
  refine step_emits _ _ _ ?_ fun u s => ?_
  · obtain ⟨δ, h1, h2, _⟩ := safe_click_emits env login_btn 30 3 s
    exact ⟨δ, h1, h2⟩
  refine step_emits _ _ _ ?_ fun u s => ?_
  · obtain ⟨δ, h1, h2, _⟩ := wait_for_page_load_emits env s
    exact ⟨δ, h1, h2⟩
  refine step_emits _ _ _ ?_ fun u s => ?_
  · obtain ⟨δ, h1, h2, _⟩ := safe_find_element_emits env "ProductCIBCode" 45 3 s
    exact ⟨δ, h1, h2⟩
  exact ⟨[], by simp [Emits], plainEvs_nil⟩

/-- Callbacks that never raise (covering the no-callback case). -/
def cbOk : Option Callback → Prop
  | none => True
  | some f => ∀ i t l, f i t l = Except.ok ()

/-- The error list is an order-preserving selection of per-row failure
messages of the given rows (idx the 0-based index of the head row): each
entry carries the 1-based row index, the row label and an exception
description, and entries of later rows come later. -/
def LedgerMatches : List Row → Nat → List String → Prop
  | [], _, errs => errs = []
  | row :: rest, idx, errs =>
    LedgerMatches rest (idx + 1) errs ∨
    ∃ e : Exc, ∃ tail : List String,
      errs = rowErrMsg idx (productLabel row idx) e :: tail ∧
      LedgerMatches rest (idx + 1) tail

/-- The progress events a completed loop over these rows appends. -/
def progressList : List Row → Nat → Nat → List Event
  | [], _, _ => []
  | row :: rest, idx, total =>
    Event.progress (idx + 1) total (productLabel row idx) :: progressList rest (idx + 1) total

lemma progressList_eq (total : Nat) :
    ∀ (rows : List Row) (idx : Nat), progressList rows idx total =
      (List.range rows.length).map
        (fun k => Event.progress (idx + 1 + k) total (productLabel (rows.getD k []) (idx + k))) := by
  intro rows
  induction rows with
  | nil => intro idx; simp [progressList]
  | cons row rest ih =>
    intro idx
    rw [progressList, ih (idx + 1)]
    rw [List.length_cons, List.range_succ_eq_map, List.map_cons, List.map_map]
    congr 1
    apply List.map_congr_left
    intro k hk
    simp only [Function.comp_apply, List.getD_cons_succ]
    have h1 : idx + 1 + 1 + k = idx + 1 + (k + 1) := by omega
    have h2 : idx + 1 + k = idx + (k + 1) := by omega
    rw [h1, h2]

/-- Trace fragment of one processRow: no teardown event, and exactly one
progress event (of that row) when a callback is present, none otherwise. -/
lemma processRow_emits (env : Env) (cb : Option Callback) (total : Nat) (row : Row)
    (idx : Nat) (acc : Nat × List String) (s : St) :
    ∃ δ, Emits s (processRow env cb total row idx acc s).2 δ ∧
      (∀ ev ∈ δ, ev.isQuit = false) ∧
      progressEvents δ =
        (if cb.isSome then [Event.progress (idx + 1) total (productLabel row idx)] else []) := by
  obtain ⟨δ1, hδ1, hp1⟩ := rowTry_emits env row s
  cases hrt : rowTry env row s with
  | mk r s1 =>
    rw [hrt] at hδ1
    cases cb with
    | none =>
      have hunf : (processRow env none total row idx acc s).2 = s1 := by
        cases r <;> simp [processRow, hrt]
      rw [hunf]
      exact ⟨δ1, hδ1, fun ev hev => (hp1 ev hev).2,
        by simp [progressEvents_of_plain hp1]⟩
    | some f =>
      have hunf : (processRow env (some f) total row idx acc s).2 =
          s1.emit (Event.progress (idx + 1) total (productLabel row idx)) := by
        cases hf : f (idx + 1) total (productLabel row idx) <;>
          cases r <;> simp [processRow, hrt, hf]
      rw [hunf]
      refine ⟨δ1 ++ [Event.progress (idx + 1) total (productLabel row idx)], ?_, ?_, ?_⟩
      · have h2 : Emits s1 (s1.emit (Event.progress (idx + 1) total (productLabel row idx)))
            [Event.progress (idx + 1) total (productLabel row idx)] := by
          simp [Emits, St.emit]
        exact emits_trans hδ1 h2
      · intro ev hev
        rcases List.mem_append.mp hev with hev | hev
        · exact (hp1 ev hev).2
        · simp at hev
          subst hev
          rfl
      · rw [progressEvents_append, progressEvents_of_plain hp1]
        simp [progressEvents, Event.isProgress]

/-- A processRow that returned normally accounted its row exactly once:
either one more success, or one more error entry with the row message. -/
lemma processRow_ok_acc (env : Env) (cb : Option Callback) (total : Nat) (row : Row)
    (idx : Nat) (acc : Nat × List String) (s : St) (acc2 : Nat × List String)
    (h : (processRow env cb total row idx acc s).1 = Except.ok acc2) :
    acc2 = (acc.1 + 1, acc.2) ∨
    ∃ e, acc2 = (acc.1, acc.2 ++ [rowErrMsg idx (productLabel row idx) e]) := by
  cases hrt : rowTry env row s with
  | mk r s1 =>
    cases r with
    | ok u =>
      left
      cases cb with
      | none =>
        simp [processRow, hrt] at h
        exact h.symm
      | some f =>
        cases hf : f (idx + 1) total (productLabel row idx) with
        | ok u2 =>
          simp [processRow, hrt, hf] at h
          exact h.symm
        | error e2 =>
          simp [processRow, hrt, hf] at h
    | error e =>
      right
      refine ⟨e, ?_⟩
      cases cb with
      | none =>
        simp [processRow, hrt] at h
        exact h.symm
      | some f =>
        cases hf : f (idx + 1) total (productLabel row idx) with
        | ok u2 =>
          simp [processRow, hrt, hf] at h
          exact h.symm
        | error e2 =>
          simp [processRow, hrt, hf] at h

/-- Under a never-raising callback processRow always returns normally. -/
lemma processRow_cbOk (env : Env) (cb : Option Callback) (total : Nat) (row : Row)
    (idx : Nat) (acc : Nat × List String) (s : St) (hcb : cbOk cb) :
    ∃ acc2 s1, processRow env cb total row idx acc s = (Except.ok acc2, s1) := by
  cases hrt : rowTry env row s with
  | mk r s1 =>
    cases cb with
    | none =>
      cases r with
      | ok u =>
        exact ⟨(acc.1 + 1, acc.2), s1, by simp [processRow, hrt]⟩
      | error e =>
        exact ⟨(acc.1, acc.2 ++ [rowErrMsg idx (productLabel row idx) e]), s1,
          by simp [processRow, hrt]⟩
    | some f =>
      have hf : f (idx + 1) total (productLabel row idx) = Except.ok () :=
        hcb (idx + 1) total (productLabel row idx)
      cases r with
      | ok u =>
        exact ⟨(acc.1 + 1, acc.2),
          s1.emit (Event.progress (idx + 1) total (productLabel row idx)),
          by simp [processRow, hrt, hf]⟩
      | error e =>
        exact ⟨(acc.1, acc.2 ++ [rowErrMsg idx (productLabel row idx) e]),
          s1.emit (Event.progress (idx + 1) total (productLabel row idx)),
          by simp [processRow, hrt, hf]⟩

/-- A row whose try-block failed is converted into exactly its error entry
and the loop proceeds with the next row (callback not raising). -/
lemma rowLoop_error_step (env : Env) (cb : Option Callback) (total : Nat) (row : Row)
    (rest : List Row) (idx : Nat) (acc : Nat × List String) (s : St) (e : Exc) (s1 : St)
    (hrt : rowTry env row s = (Except.error e, s1)) (hcb : cbOk cb) :
    rowLoop env cb total (row :: rest) idx acc s =
      rowLoop env cb total rest (idx + 1)
        (acc.1, acc.2 ++ [rowErrMsg idx (productLabel row idx) e])
        (match cb with
         | none => s1
         | some _ => s1.emit (Event.progress (idx + 1) total (productLabel row idx))) := by
  cases cb with
  | none => simp [rowLoop, processRow, hrt]
  | some f =>
    have hf : f (idx + 1) total (productLabel row idx) = Except.ok () :=
      hcb (idx + 1) total (productLabel row idx)
    simp [rowLoop, processRow, hrt, hf]

/-- A completed row loop accounted every row exactly once. -/
lemma rowLoop_ok_count (env : Env) (cb : Option Callback) (total : Nat) :
    ∀ (rows : List Row) (idx : Nat) (acc : Nat × List String) (s : St)
      (sc : Nat) (errs : List String) (s' : St),
      rowLoop env cb total rows idx acc s = (Except.ok (sc, errs), s') →
      sc + errs.length = acc.1 + acc.2.length + rows.length := by
  intro rows
  induction rows with
  | nil =>
    intro idx acc s sc errs s' h
    rw [rowLoop] at h
    injection h with h1 h2
    injection h1 with h3
    subst h3
    simp
  | cons row rest ih =>
    intro idx acc s sc errs s' h
    cases hpr : processRow env cb total row idx acc s with
    | mk r1 s1 =>
      cases r1 with
      | ok acc2 =>
        rw [rowLoop, hpr] at h
        have hacc : acc2.1 + acc2.2.length = acc.1 + acc.2.length + 1 := by
          rcases processRow_ok_acc env cb total row idx acc s acc2 (by rw [hpr]) with
            h2 | ⟨e, h2⟩ <;> subst h2 <;> simp <;> omega
        have := ih (idx + 1) acc2 s1 sc errs s' h
        rw [hacc] at this
        simp [List.length_cons]
        omega
      | error e =>
        rw [rowLoop, hpr] at h
        cases h

/-- A completed row loop appends an order-preserving selection of failure
messages to the error list. -/
lemma rowLoop_ok_ledger (env : Env) (cb : Option Callback) (total : Nat) :
    ∀ (rows : List Row) (idx : Nat) (acc : Nat × List String) (s : St)
      (sc : Nat) (errs : List String) (s' : St),
      rowLoop env cb total rows idx acc s = (Except.ok (sc, errs), s') →
      ∃ suffix, errs = acc.2 ++ suffix ∧ LedgerMatches rows idx suffix := by
  intro rows
  induction rows with
  | nil =>
    intro idx acc s sc errs s' h
    rw [rowLoop] at h
    injection h with h1 h2
    injection h1 with h3
    subst h3
    exact ⟨[], by simp, rfl⟩
  | cons row rest ih =>
    intro idx acc s sc errs s' h
    cases hpr : processRow env cb total row idx acc s with
    | mk r1 s1 =>
      cases r1 with
      | ok acc2 =>
        rw [rowLoop, hpr] at h
        obtain ⟨suffix, hsuf, hled⟩ := ih (idx + 1) acc2 s1 sc errs s' h
        rcases processRow_ok_acc env cb total row idx acc s acc2 (by rw [hpr]) with
          h2 | ⟨e, h2⟩
        · subst h2
          exact ⟨suffix, hsuf, Or.inl hled⟩
        · subst h2
          refine ⟨rowErrMsg idx (productLabel row idx) e :: suffix, ?_,
            Or.inr ⟨e, suffix, rfl, hled⟩⟩
          rw [hsuf]
          simp
      | error e =>
        rw [rowLoop, hpr] at h
        cases h

/-- A row loop over rows with a callback, completing normally, appends
exactly the per-row progress events in row order. -/
lemma rowLoop_ok_progress (env : Env) (f : Callback) (total : Nat) :
    ∀ (rows : List Row) (idx : Nat) (acc : Nat × List String) (s : St)
      (res : Nat × List String) (s' : St),
      rowLoop env (some f) total rows idx acc s = (Except.ok res, s') →
      progressEvents s'.events = progressEvents s.events ++ progressList rows idx total := by
  intro rows
  induction rows with
  | nil =>
    intro idx acc s res s' h
    simp [rowLoop] at h
    simp [progressList, h.2]
  | cons row rest ih =>
    intro idx acc s res s' h
    obtain ⟨δ, hδ, _, hprog⟩ := processRow_emits env (some f) total row idx acc s
    cases hpr : processRow env (some f) total row idx acc s with
    | mk r1 s1 =>
      rw [hpr] at hδ
      cases r1 with
      | ok acc2 =>
        rw [rowLoop, hpr] at h
        rw [ih (idx + 1) acc2 s1 res s' h]
        rw [Emits] at hδ
        rw [hδ, progressEvents_append]
        simp only [Option.isSome_some, if_pos] at hprog
        rw [hprog]
        simp [progressList]
      | error e =>
        rw [rowLoop, hpr] at h
        cases h

/-- Under a never-raising callback the row loop always completes, whatever
the oracle does to the individual rows. -/
lemma rowLoop_cbOk_ok (env : Env) (cb : Option Callback) (total : Nat) (hcb : cbOk cb) :
    ∀ (rows : List Row) (idx : Nat) (acc : Nat × List String) (s : St),
      ∃ sc errs s', rowLoop env cb total rows idx acc s = (Except.ok (sc, errs), s') := by
  intro rows
  induction rows with
  | nil =>
    intro idx acc s
    exact ⟨acc.1, acc.2, s, by simp [rowLoop]⟩
  | cons row rest ih =>
    intro idx acc s
    obtain ⟨acc2, s1, hpr⟩ := processRow_cbOk env cb total row idx acc s hcb
    obtain ⟨sc, errs, s', h⟩ := ih (idx + 1) acc2 s1
    exact ⟨sc, errs, s', by rw [rowLoop, hpr]; exact h⟩

/-- The row loop never emits a teardown event, whatever happens. -/
lemma rowLoop_quitFree (env : Env) (cb : Option Callback) (total : Nat) :
    ∀ (rows : List Row) (idx : Nat) (acc : Nat × List String) (s : St),
      ∃ δ, Emits s (rowLoop env cb total rows idx acc s).2 δ ∧
        ∀ ev ∈ δ, ev.isQuit = false := by
  intro rows
  induction rows with
  | nil =>
    intro idx acc s
    refine ⟨[], by simp [Emits, rowLoop], ?_⟩
    intro ev hev
    cases hev
  | cons row rest ih =>
    intro idx acc s
    obtain ⟨δ1, hδ1, hq1⟩ := processRow_emits env cb total row idx acc s
    cases hpr : processRow env cb total row idx acc s with
    | mk r1 s1 =>
      rw [hpr] at hδ1
      cases r1 with
      | ok acc2 =>
        obtain ⟨δ2, hδ2, hq2⟩ := ih (idx + 1) acc2 s1
        refine ⟨δ1 ++ δ2, ?_, ?_⟩
        · rw [Emits, rowLoop, hpr]
          exact emits_trans hδ1 hδ2
        · intro ev hev
          rcases List.mem_append.mp hev with hev | hev
          · exact hq1.1 ev hev
          · exact hq2 ev hev
      | error e =>
        refine ⟨δ1, ?_, hq1.1⟩
        rw [Emits, rowLoop, hpr]
        exact hδ1

/-- Teardown always records exactly the quit invocation and never fails,
whatever driver.quit itself did. -/
lemma teardown_eq (env : Env) (s : St) : teardown env s = s.emit Event.quit := by
  cases h : env.quitResult <;> simp [teardown, h]

lemma quitEvents_of_quitFree {δ : List Event} (h : ∀ ev ∈ δ, ev.isQuit = false) :
    quitEvents δ = [] := by
  simp only [quitEvents, List.filter_eq_nil_iff]
  intro ev hev
  simp [h ev hev]

/-- In a mapping table with pairwise distinct keys a key determines its
column. -/
lemma key_unique_of_nodup :
    ∀ (l : List (String × String)), (l.map Prod.fst).Nodup →
      ∀ {w c1 c2 : String}, (w, c1) ∈ l → (w, c2) ∈ l → c1 = c2 := by
  intro l
  induction l with
  | nil =>
    intro _ w c1 c2 h
    cases h
  | cons p rest ih =>
    intro hnd w c1 c2 h1 h2
    rw [List.map_cons, List.nodup_cons] at hnd
    obtain ⟨hx, hnd2⟩ := hnd
    rcases List.mem_cons.mp h1 with h1 | h1 <;> rcases List.mem_cons.mp h2 with h2 | h2
    · have h12 := h1.trans h2.symm
      exact congrArg Prod.snd h12
    · exfalso
      apply hx
      rw [← h1]
      show w ∈ List.map Prod.fst rest
      exact List.mem_map_of_mem Prod.fst h2
    · exfalso
      apply hx
      rw [← h2]
      show w ∈ List.map Prod.fst rest
      exact List.mem_map_of_mem Prod.fst h1
    · exact ih hnd2 h1 h2

lemma FIELD_MAPPINGS_keys_nodup : (FIELD_MAPPINGS.map Prod.fst).Nodup := by decide

/-- Events of j exhausted attempts, each followed by the fixed 1-second
backoff sleep. -/
def retryTrace (loc : String) : Nat → List Event
  | 0 => []
  | j + 1 => Event.attempt loc :: Event.sleep 1000 :: retryTrace loc j

lemma find_persistent_fail (env : Env) (loc : String) (t : Nat) (e : Exc)
    (hc : findCaught e = true) (hfail : ∀ k, env.attemptResult k = Except.error e) :
    ∀ (m : Nat) (s : St), safe_find_element env loc t (m + 1) s =
      (Except.error e, ⟨s.tick + m + 1, s.events ++ retryTrace loc m ++ [Event.attempt loc]⟩) := by
  intro m
  induction m with
  | zero =>
    intro s
    simp [safe_find_element, waitAttempt, hfail s.tick, hc, retryTrace]
  | succ j ih =>
    intro s
    have hstep : safe_find_element env loc t (j + 1 + 1) s =
        safe_find_element env loc t (j + 1)
          ⟨s.tick + 1, (s.events ++ [Event.attempt loc]) ++ [Event.sleep 1000]⟩ := by
      simp [safe_find_element, waitAttempt, hfail s.tick, hc, St.emit]
    rw [hstep, ih]
    refine Prod.ext ?_ ?_
    · rfl
    · show (⟨s.tick + 1 + j + 1, _⟩ : St) = ⟨s.tick + (j + 1) + 1, _⟩
      refine congrArg₂ St.mk (by omega) ?_
      simp [retryTrace, List.append_assoc]

lemma click_persistent_fail (env : Env) (loc : String) (t : Nat) (e : Exc)
    (hc : clickCaught e = true) (hfail : ∀ k, env.attemptResult k = Except.error e) :
    ∀ (m : Nat) (s : St), safe_click env loc t (m + 1) s =
      (Except.error e, ⟨s.tick + m + 1, s.events ++ retryTrace loc m ++ [Event.attempt loc]⟩) := by
  intro m
  induction m with
  | zero =>
    intro s
    simp [safe_click, waitAttempt, hfail s.tick, hc, retryTrace]
  | succ j ih =>
    intro s
    have hstep : safe_click env loc t (j + 1 + 1) s =
        safe_click env loc t (j + 1)
          ⟨s.tick + 1, (s.events ++ [Event.attempt loc]) ++ [Event.sleep 1000]⟩ := by
      simp [safe_click, waitAttempt, hfail s.tick, hc, St.emit]
    rw [hstep, ih]
    refine Prod.ext rfl ?_
    show (⟨s.tick + 1 + j + 1, _⟩ : St) = ⟨s.tick + (j + 1) + 1, _⟩
    refine congrArg₂ St.mk (by omega) ?_
    simp [retryTrace, List.append_assoc]

lemma sendAttempts_persistent_fail (env : Env) (loc text : String) (cf : Bool) (t : Nat)
    (e : Exc) (hc : clickCaught e = true)
    (hfail : ∀ k, env.attemptResult k = Except.error e) :
    ∀ (m : Nat) (s : St), sendAttempts env loc text cf t (m + 1) s =
      (Except.error e, ⟨s.tick + m + 1, s.events ++ retryTrace loc m ++ [Event.attempt loc]⟩) := by
  intro m
  induction m with
  | zero =>
    intro s
    simp [sendAttempts, waitAttempt, hfail s.tick, hc, retryTrace]
  | succ j ih =>
    intro s
    have hstep : sendAttempts env loc text cf t (j + 1 + 1) s =
        sendAttempts env loc text cf t (j + 1)
          ⟨s.tick + 1, (s.events ++ [Event.attempt loc]) ++ [Event.sleep 1000]⟩ := by
      simp [sendAttempts, waitAttempt, hfail s.tick, hc, St.emit]
    rw [hstep, ih]
    refine Prod.ext rfl ?_
    show (⟨s.tick + 1 + j + 1, _⟩ : St) = ⟨s.tick + (j + 1) + 1, _⟩
    refine congrArg₂ St.mk (by omega) ?_
    simp [retryTrace, List.append_assoc]

lemma find_success_at (env : Env) (loc : String) (t : Nat) (e : Exc)
    (hc : findCaught e = true) :
    ∀ (j : Nat) (n : Nat) (s : St),
      (∀ k, k < j → env.attemptResult (s.tick + k) = Except.error e) →
      env.attemptResult (s.tick + j) = Except.ok () → j < n →
      safe_find_element env loc t n s =
        (Except.ok (some ()), ⟨s.tick + j + 1, s.events ++ retryTrace loc j ++ [Event.attempt loc]⟩) := by
  intro j
  induction j with
  | zero =>
    intro n s hbefore hj hn
    obtain ⟨n', rfl⟩ : ∃ n', n = n' + 1 := ⟨n - 1, by omega⟩
    have hj0 : env.attemptResult s.tick = Except.ok () := by simpa using hj
    simp [safe_find_element, waitAttempt, hj0, retryTrace]
  | succ i ih =>
    intro n s hbefore hj hn
    obtain ⟨n', rfl⟩ : ∃ n', n = n' + 1 := ⟨n - 1, by omega⟩
    have h0 : env.attemptResult s.tick = Except.error e := by
      simpa using hbefore 0 (Nat.succ_pos i)
    have hn0 : n' ≠ 0 := by omega
    have hstep : safe_find_element env loc t (n' + 1) s =
        safe_find_element env loc t n'
          ⟨s.tick + 1, (s.events ++ [Event.attempt loc]) ++ [Event.sleep 1000]⟩ := by
      simp [safe_find_element, waitAttempt, h0, hc, hn0, St.emit]
    rw [hstep,
      ih n' ⟨s.tick + 1, (s.events ++ [Event.attempt loc]) ++ [Event.sleep 1000]⟩
        (fun k hk => by
          have := hbefore (k + 1) (by omega)
          simpa [Nat.add_assoc, Nat.add_comm 1 k] using this)
        (by
          have := hj
          simpa [Nat.add_assoc, Nat.add_comm 1 i] using this)
        (by omega)]
    refine Prod.ext rfl ?_
    show (⟨s.tick + 1 + i + 1, _⟩ : St) = ⟨s.tick + (i + 1) + 1, _⟩
    refine congrArg₂ St.mk (by omega) ?_
    simp [retryTrace, List.append_assoc]

lemma click_success_at (env : Env) (loc : String) (t : Nat) (e : Exc)
    (hc : clickCaught e = true) :
    ∀ (j : Nat) (n : Nat) (s : St),
      (∀ k, k < j → env.attemptResult (s.tick + k) = Except.error e) →
      env.attemptResult (s.tick + j) = Except.ok () → j < n →
      safe_click env loc t n s =
        (Except.ok (some true),
          ⟨s.tick + j + 1, s.events ++ retryTrace loc j ++
            [Event.attempt loc, Event.click loc]⟩) := by
  intro j
  induction j with
  | zero =>
    intro n s hbefore hj hn
    obtain ⟨n', rfl⟩ : ∃ n', n = n' + 1 := ⟨n - 1, by omega⟩
    have hj0 : env.attemptResult s.tick = Except.ok () := by simpa using hj
    simp [safe_click, waitAttempt, hj0, retryTrace, St.emit]
  | succ i ih =>
    intro n s hbefore hj hn
    obtain ⟨n', rfl⟩ : ∃ n', n = n' + 1 := ⟨n - 1, by omega⟩
    have h0 : env.attemptResult s.tick = Except.error e := by
      simpa using hbefore 0 (Nat.succ_pos i)
    have hn0 : n' ≠ 0 := by omega
    have hstep : safe_click env loc t (n' + 1) s =
        safe_click env loc t n'
          ⟨s.tick + 1, (s.events ++ [Event.attempt loc]) ++ [Event.sleep 1000]⟩ := by
      simp [safe_click, waitAttempt, h0, hc, hn0, St.emit]
    rw [hstep,
      ih n' ⟨s.tick + 1, (s.events ++ [Event.attempt loc]) ++ [Event.sleep 1000]⟩
        (fun k hk => by
          have := hbefore (k + 1) (by omega)
          simpa [Nat.add_assoc, Nat.add_comm 1 k] using this)
        (by
          have := hj
          simpa [Nat.add_assoc, Nat.add_comm 1 i] using this)
        (by omega)]
    refine Prod.ext rfl ?_
    show (⟨s.tick + 1 + i + 1, _⟩ : St) = ⟨s.tick + (i + 1) + 1, _⟩
    refine congrArg₂ St.mk (by omega) ?_
    simp [retryTrace, List.append_assoc]

lemma sendAttempts_success_at (env : Env) (loc text : String) (t : Nat) (e : Exc)
    (hc : clickCaught e = true) :
    ∀ (j : Nat) (n : Nat) (s : St),
      (∀ k, k < j → env.attemptResult (s.tick + k) = Except.error e) →
      env.attemptResult (s.tick + j) = Except.ok () → j < n →
      sendAttempts env loc text true t n s =
        (Except.ok (some true),
          ⟨s.tick + j + 1, s.events ++ retryTrace loc j ++
            [Event.attempt loc, Event.clearField loc, Event.sleep 100,
             Event.sendKeys loc text]⟩) := by
  intro j
  induction j with
  | zero =>
    intro n s hbefore hj hn
    obtain ⟨n', rfl⟩ : ∃ n', n = n' + 1 := ⟨n - 1, by omega⟩
    have hj0 : env.attemptResult s.tick = Except.ok () := by simpa using hj
    simp [sendAttempts, waitAttempt, hj0, retryTrace, St.emit]
  | succ i ih =>
    intro n s hbefore hj hn
    obtain ⟨n', rfl⟩ : ∃ n', n = n' + 1 := ⟨n - 1, by omega⟩
    have h0 : env.attemptResult s.tick = Except.error e := by
      simpa using hbefore 0 (Nat.succ_pos i)
    have hn0 : n' ≠ 0 := by omega
    have hstep : sendAttempts env loc text true t (n' + 1) s =
        sendAttempts env loc text true t n'
          ⟨s.tick + 1, (s.events ++ [Event.attempt loc]) ++ [Event.sleep 1000]⟩ := by
      simp [sendAttempts, waitAttempt, h0, hc, hn0, St.emit]
    rw [hstep,
      ih n' ⟨s.tick + 1, (s.events ++ [Event.attempt loc]) ++ [Event.sleep 1000]⟩
        (fun k hk => by
          have := hbefore (k + 1) (by omega)
          simpa [Nat.add_assoc, Nat.add_comm 1 k] using this)
        (by
          have := hj
          simpa [Nat.add_assoc, Nat.add_comm 1 i] using this)
        (by omega)]
    refine Prod.ext rfl ?_
    show (⟨s.tick + 1 + i + 1, _⟩ : St) = ⟨s.tick + (i + 1) + 1, _⟩
    refine congrArg₂ St.mk (by omega) ?_
    simp [retryTrace, List.append_assoc]

/-- When no row of the prefix carries a Password value, the scan cannot
break inside the prefix, and the first row with both fields supplies both
credentials. -/
lemma scanCreds_no_pwd :
    ∀ (pre : List Row), (∀ row ∈ pre, credVal (rowGet row "Password") = none) →
      ∀ (r : Row) (post : List Row) (r0 : Option String) (a b : String),
        credVal (rowGet r "RegistrationNo") = some a →
        credVal (rowGet r "Password") = some b →
        scanCreds (pre ++ r :: post) r0 none = (some a, some b) := by
  intro pre
  induction pre with
  | nil =>
    intro _ r post r0 a b ha hb
    simp [scanCreds, ha, hb]
  | cons row rest ih =>
    intro hpre r post r0 a b ha hb
    have h0 : credVal (rowGet row "Password") = none := hpre row (List.mem_cons_self _ _)
    have hrest : ∀ row ∈ rest, credVal (rowGet row "Password") = none :=
      fun row h => hpre row (List.mem_cons_of_mem _ h)
    cases hr : credVal (rowGet row "RegistrationNo") with
    | none =>
      rw [List.cons_append, scanCreds]
      simp [hr, h0]
      exact ih hrest r post r0 a b ha hb
    | some q =>
      rw [List.cons_append, scanCreds]
      simp [hr, h0]
      exact ih hrest r post (some q) a b ha hb

/-- Symmetric case: no row of the prefix carries a RegistrationNo value. -/
lemma scanCreds_no_reg :
    ∀ (pre : List Row), (∀ row ∈ pre, credVal (rowGet row "RegistrationNo") = none) →
      ∀ (r : Row) (post : List Row) (p0 : Option String) (a b : String),
        credVal (rowGet r "RegistrationNo") = some a →
        credVal (rowGet r "Password") = some b →
        scanCreds (pre ++ r :: post) none p0 = (some a, some b) := by
  intro pre
  induction pre with
  | nil =>
    intro _ r post p0 a b ha hb
    simp [scanCreds, ha, hb]
  | cons row rest ih =>
    intro hpre r post p0 a b ha hb
    have h0 : credVal (rowGet row "RegistrationNo") = none := hpre row (List.mem_cons_self _ _)
    have hrest : ∀ row ∈ rest, credVal (rowGet row "RegistrationNo") = none :=
      fun row h => hpre row (List.mem_cons_of_mem _ h)
    cases hp : credVal (rowGet row "Password") with
    | none =>
      rw [List.cons_append, scanCreds]
      simp [h0, hp]
      exact ih hrest r post p0 a b ha hb
    | some q =>
      rw [List.cons_append, scanCreds]
      simp [h0, hp]
      exact ih hrest r post (some q) a b ha hb

/-- When the callback first raises at current row m, the loop emits the
progress events of rows idx+1 .. m and then propagates the callback
exception, never reaching the later rows. -/
lemma rowLoop_cb_fails_at (env : Env) (g : Callback) (total : Nat) (m : Nat) (e : Exc)
    (hgm : ∀ t l, g m t l = Except.error e)
    (hglt : ∀ j t l, j < m → g j t l = Except.ok ()) :
    ∀ (rows : List Row) (idx : Nat) (acc : Nat × List String) (s : St),
      idx + 1 ≤ m → m ≤ idx + rows.length →
      (rowLoop env (some g) total rows idx acc s).1 = Except.error e ∧
      ∃ δ, Emits s (rowLoop env (some g) total rows idx acc s).2 δ ∧
        (∀ ev ∈ δ, ev.isQuit = false) ∧
        (progressEvents δ).length = m - idx := by
  intro rows
  induction rows with
  | nil =>
    intro idx acc s h1 h2
    exfalso
    simp at h2
    omega
  | cons row rest ih =>
    intro idx acc s h1 h2
    obtain ⟨δ1, hδ1, hq1, hprog1⟩ := processRow_emits env (some g) total row idx acc s
    simp only [Option.isSome_some, if_true] at hprog1
    by_cases hm : idx + 1 = m
    · have hg : g (idx + 1) total (productLabel row idx) = Except.error e := by
        rw [hm]
        exact hgm total _
      have hpr1 : (processRow env (some g) total row idx acc s).1 = Except.error e := by
        cases hrt : rowTry env row s with
        | mk r s1 => cases r <;> simp [processRow, hrt, hg]
      cases hpr : processRow env (some g) total row idx acc s with
      | mk r1 s1 =>
        rw [hpr] at hpr1 hδ1
        cases r1 with
        | ok a => simp at hpr1
        | error e2 =>
          have he : (Except.error e2 : Except Exc (Nat × List String)) = Except.error e := hpr1
          injection he with he2
          subst he2
          refine ⟨by rw [rowLoop, hpr], δ1, ?_, hq1, ?_⟩
          · rw [Emits, rowLoop, hpr]
            exact hδ1
          · rw [hprog1]
            simp
            omega
    · have hlt : idx + 1 < m := lt_of_le_of_ne h1 hm
      have hg : g (idx + 1) total (productLabel row idx) = Except.ok () :=
        hglt (idx + 1) total _ hlt
      obtain ⟨acc2, s1, hpr⟩ :
          ∃ acc2 s1, processRow env (some g) total row idx acc s = (Except.ok acc2, s1) := by
        cases hrt : rowTry env row s with
        | mk r s1 =>
          cases r with
          | ok u =>
            exact ⟨(acc.1 + 1, acc.2),
              s1.emit (Event.progress (idx + 1) total (productLabel row idx)),
              by simp [processRow, hrt, hg]⟩
          | error e2 =>
            exact ⟨(acc.1, acc.2 ++ [rowErrMsg idx (productLabel row idx) e2]),
              s1.emit (Event.progress (idx + 1) total (productLabel row idx)),
              by simp [processRow, hrt, hg]⟩
      have h2b : m ≤ (idx + 1) + rest.length := by
        simp at h2
        omega
      obtain ⟨hres2, δ2, hδ2, hq2, hlen2⟩ := ih (idx + 1) acc2 s1 (by omega) h2b
      rw [hpr] at hδ1
      constructor
      · rw [rowLoop, hpr]
        exact hres2
      · refine ⟨δ1 ++ δ2, ?_, ?_, ?_⟩
        · rw [Emits, rowLoop, hpr]
          exact emits_trans hδ1 hδ2
        · intro ev hev
          rcases List.mem_append.mp hev with hev | hev
          · exact hq1 ev hev
          · exact hq2 ev hev
        · rw [progressEvents_append, List.length_append, hprog1, hlen2]
          simp
          omega

lemma launchFail_run (rows : List Row) (reg pwd : String) (cb : Option Callback) (e : Exc) :
    process_file (launchFailEnv e) rows reg pwd cb = (Except.error e, St.init) := rfl

/-- Sequencing preserves any per-event property of the appended
fragment. -/
lemma step_all (P : Event → Prop) {a b : Type} (x : Except Exc a × St)
    (f : a → St → Except Exc b × St) (s : St)
    (hx : ∃ δ, Emits s x.2 δ ∧ ∀ ev ∈ δ, P ev)
    (hf : ∀ u s1, ∃ δ, Emits s1 (f u s1).2 δ ∧ ∀ ev ∈ δ, P ev) :
    ∃ δ, Emits s (step x f).2 δ ∧ ∀ ev ∈ δ, P ev := by
  obtain ⟨δ1, hδ1, hp1⟩ := hx
  cases x with
  | mk r s1 =>
    cases r with
    | ok u =>
      obtain ⟨δ2, hδ2, hp2⟩ := hf u s1
      refine ⟨δ1 ++ δ2, emits_trans hδ1 hδ2, ?_⟩
      intro ev hev
      rcases List.mem_append.mp hev with hev | hev
      · exact hp1 ev hev
      · exact hp2 ev hev
    | error e =>
      exact ⟨δ1, hδ1, hp1⟩

/-- The login phase appends only plain events, and the only field
invocations it makes are the two credential fields with the passed
credentials. -/
lemma loginPhase_typeInto (env : Env) (reg pwd : String) (s : St) :
    ∃ δ, Emits s (loginPhase env reg pwd s).2 δ ∧ PlainEvs δ ∧
      (∀ w v, Event.typeInto w v ∈ δ →
        (w = "RegistrationNo" ∧ v = reg) ∨ (w = "Password" ∧ v = pwd)) := by
  have key : ∃ δ, Emits s (loginPhase env reg pwd s).2 δ ∧
      ∀ ev ∈ δ, (ev.isProgress = false ∧ ev.isQuit = false) ∧
        ∀ w v, ev = Event.typeInto w v →
          (w = "RegistrationNo" ∧ v = reg) ∨ (w = "Password" ∧ v = pwd) := by
    unfold loginPhase
    refine step_all _ _ _ _ ?_ fun u s => ?_
    · obtain ⟨δ, h1, h2, h3⟩ := navigate_emits env target_url s
      refine ⟨δ, h1, fun ev hev => ⟨h2 ev hev, fun w v hw => absurd (hw ▸ hev) (h3 w v)⟩⟩
    refine step_all _ _ _ _ ?_ fun u s => ?_
    · obtain ⟨δ, h1, h2, h3⟩ := wait_for_page_load_emits env s
      refine ⟨δ, h1, fun ev hev => ⟨h2 ev hev, fun w v hw => absurd (hw ▸ hev) (h3 w v)⟩⟩
    refine step_all _ _ _ _ ?_ fun u s => ?_
    · obtain ⟨δ, h1, h2, h3⟩ := safe_find_element_emits env "loginForm" 30 3 s
      refine ⟨δ, h1, fun ev hev => ⟨h2 ev hev, fun w v hw => absurd (hw ▸ hev) (h3 w v)⟩⟩
    refine step_all _ _ _ _ ?_ fun u s => ?_
    · obtain ⟨δ, h1, h2, h3⟩ := safe_send_keys_emits env "RegistrationNo" reg true 30 3 s
      refine ⟨δ, h1, fun ev hev => ⟨h2 ev hev, fun w v hw => ?_⟩⟩
      obtain ⟨hw1, hw2⟩ := (h3 w v).mp (hw ▸ hev)
      exact Or.inl ⟨hw1, hw2⟩
    refine step_all _ _ _ _ ?_ fun u s => ?_
    · obtain ⟨δ, h1, h2, h3⟩ := safe_send_keys_emits env "Password" pwd true 30 3 s
      refine ⟨δ, h1, fun ev hev => ⟨h2 ev hev, fun w v hw => ?_⟩⟩
      obtain ⟨hw1, hw2⟩ := (h3 w v).mp (hw ▸ hev)
      exact Or.inr ⟨hw1, hw2⟩
    refine step_all _ _ _ _ ?_ fun u s => ?_
    · obtain ⟨δ, h1, h2, h3⟩ := safe_click_emits env login_btn 30 3 s
      refine ⟨δ, h1, fun ev hev => ⟨h2 ev hev, fun w v hw => absurd (hw ▸ hev) (h3 w v)⟩⟩
    refine step_all _ _ _ _ ?_ fun u s => ?_
    · obtain ⟨δ, h1, h2, h3⟩ := wait_for_page_load_emits env s
      refine ⟨δ, h1, fun ev hev => ⟨h2 ev hev, fun w v hw => absurd (hw ▸ hev) (h3 w v)⟩⟩
    refine step_all _ _ _ _ ?_ fun u s => ?_
    · obtain ⟨δ, h1, h2, h3⟩ := safe_find_element_emits env "ProductCIBCode" 45 3 s
      refine ⟨δ, h1, fun ev hev => ⟨h2 ev hev, fun w v hw => absurd (hw ▸ hev) (h3 w v)⟩⟩
    exact ⟨[], by simp [Emits], fun ev hev => absurd hev (List.not_mem_nil ev)⟩
  obtain ⟨δ, h1, h2⟩ := key
  refine ⟨δ, h1, fun ev hev => (h2 ev hev).1, fun w v hv => (h2 _ hv).2 w v rfl⟩

/-- A run whose login phase raises yields that error with no progress
event, a single teardown, and no field invocation beyond the two
credential fields. -/
lemma fatal_prelude_run (env : Env) (rows : List Row) (reg pwd : String)
    (cb : Option Callback) (e : Exc) (hl : env.launch = Except.ok ())
    (h : (loginPhase env reg pwd St.init).1 = Except.error e) :
    (process_file env rows reg pwd cb).1 = Except.error e ∧
    progressEvents (process_file env rows reg pwd cb).2.events = [] ∧
    quitEvents (process_file env rows reg pwd cb).2.events = [Event.quit] ∧
    (∀ w v, Event.typeInto w v ∈ (process_file env rows reg pwd cb).2.events →
      (w = "RegistrationNo" ∧ v = reg) ∨ (w = "Password" ∧ v = pwd)) := by
  obtain ⟨δ, hδ, hp, ht⟩ := loginPhase_typeInto env reg pwd St.init
  cases hlp : loginPhase env reg pwd St.init with
  | mk r s0 =>
    rw [hlp] at hδ h
    cases r with
    | ok u => simp at h
    | error e2 =>
      have he : (Except.error e2 : Except Exc Unit) = Except.error e := h
      injection he with he2
      subst he2
      have hstep : step (loginPhase env reg pwd St.init)
          (fun _ s => rowLoop env cb rows.length rows 0 (0, []) s) = (Except.error e2, s0) := by
        simp [step, hlp]
      have hrun : process_file env rows reg pwd cb = (Except.error e2, teardown env s0) := by
        rw [process_file, hl, hstep]
      rw [hrun, teardown_eq]
      have hev : s0.events = δ := by
        rw [Emits] at hδ
        simpa [St.init] using hδ
      refine ⟨rfl, ?_, ?_, ?_⟩
      · simp only [St.emit]
        rw [progressEvents_append, hev, progressEvents_of_plain hp]
        simp [progressEvents, Event.isProgress]
      · simp only [St.emit]
        rw [quitEvents_append, hev, quitEvents_of_plain hp]
        simp [quitEvents, Event.isQuit]
      · intro w v hv
        simp only [St.emit] at hv
        rcases List.mem_append.mp hv with hv3 | hv3
        · exact ht w v (hev ▸ hv3)
        · simp at hv3

/-- The pre-teardown body of a run never emits a teardown event. -/
lemma run_body_quitFree (env : Env) (rows : List Row) (reg pwd : String)
    (cb : Option Callback) :
    ∃ δ, Emits St.init (step (loginPhase env reg pwd St.init)
        (fun _ s => rowLoop env cb rows.length rows 0 (0, []) s)).2 δ ∧
      ∀ ev ∈ δ, ev.isQuit = false := by
  apply step_all (fun ev => ev.isQuit = false)
  · obtain ⟨δ, h1, hp⟩ := loginPhase_emits env reg pwd St.init
    exact ⟨δ, h1, fun ev hev => (hp ev hev).2⟩
  · intro u s1
    exact rowLoop_quitFree env cb rows.length rows 0 (0, []) s1

/-- A callback that never raises. -/
def okCb : Callback := fun _ _ _ => Except.ok ()

/-- A sample validated row: a product name, a missing CIB code and a
manufacturer name (the other required columns are absent). -/
def demoRow : Row :=
  [("ProductName", some "A"), ("ProductCIBCode", none), ("ManufacturerName", some "M")]

/-- A sample two-row table. -/
def demoRows : List Row := [demoRow, [("ProductName", some "B")]]

/-- C1: partial-failure isolation. Under a callback that does not raise,
the row loop always returns a ledger normally, whatever exceptions the
rows raise (so every row is attempted), with the error list extended by an
order-preserving selection of per-row failure entries that carry the
1-based row index, the row label and the error description; moreover a row
whose try-block raises e is converted into exactly its error entry and the
loop proceeds to the rows after it. -/
theorem c1_partial_failure_isolation (env : Env) (cb : Option Callback) (total : Nat)
    (rows : List Row) (idx : Nat) (acc : Nat × List String) (s : St) (hcb : cbOk cb) :
    (∃ sc errs s', rowLoop env cb total rows idx acc s = (Except.ok (sc, errs), s') ∧
      ∃ suffix, errs = acc.2 ++ suffix ∧ LedgerMatches rows idx suffix) ∧
    (∀ row rest e s1, rows = row :: rest →
      rowTry env row s = (Except.error e, s1) →
      rowLoop env cb total rows idx acc s =
        rowLoop env cb total rest (idx + 1)
          (acc.1, acc.2 ++ [rowErrMsg idx (productLabel row idx) e])
          (match cb with
           | none => s1
           | some _ => s1.emit (Event.progress (idx + 1) total (productLabel row idx)))) := by
  constructor
  · obtain ⟨sc, errs, s', h⟩ := rowLoop_cbOk_ok env cb total hcb rows idx acc s
    obtain ⟨suffix, h1, h2⟩ := rowLoop_ok_ledger env cb total rows idx acc s sc errs s' h
    exact ⟨sc, errs, s', h, suffix, h1, h2⟩
  · intro row rest e s1 hrows hrt
    subst hrows
    exact rowLoop_error_step env cb total row rest idx acc s e s1 hrt hcb

/-- Witness for C1: an environment where every element interaction fails,
yet the two-row loop completes with a well-formed ledger. -/
theorem c1_witness :
    ∃ sc errs s',
      rowLoop (constFailEnv (Exc.other "boom")) (some okCb) 2 demoRows 0 (0, []) St.init =
        (Except.ok (sc, errs), s') ∧
      ∃ suffix, errs = ((0 : Nat), ([] : List String)).2 ++ suffix ∧
        LedgerMatches demoRows 0 suffix :=
  (c1_partial_failure_isolation (constFailEnv (Exc.other "boom")) (some okCb) 2 demoRows 0
    (0, []) St.init (fun _ _ _ => rfl)).1

/-- C2: completeness of the ledger. Every run of process_file that returns
a ledger satisfies success_count + error_list.length = total_rows. -/
theorem c2_ledger_completeness (env : Env) (rows : List Row) (reg pwd : String)
    (cb : Option Callback) (sc : Nat) (errs : List String) (s' : St)
    (h : process_file env rows reg pwd cb = (Except.ok (sc, errs), s')) :
    sc + errs.length = rows.length := by
  cases hl : env.launch with
  | error e =>
    rw [process_file, hl] at h
    cases h
  | ok u =>
    rw [process_file, hl] at h
    cases hstep : step (loginPhase env reg pwd St.init)
        (fun _ s => rowLoop env cb rows.length rows 0 (0, []) s) with
    | mk res s1 =>
      rw [hstep] at h
      have h2 : (res, teardown env s1) = (Except.ok (sc, errs), s') := h
      injection h2 with h3 h4
      subst h3
      cases hlp : loginPhase env reg pwd St.init with
      | mk r s0 =>
        rw [hlp] at hstep
        cases r with
        | error e => simp [step] at hstep
        | ok u2 =>
          simp [step] at hstep
          have := rowLoop_ok_count env cb rows.length rows 0 (0, []) s0 sc errs s1 hstep
          simpa using this

/-- Witness for C2: an all-success two-row run returns 2 successes and no
errors, and 2 + 0 is the row count. -/
theorem c2_witness : (2 : Nat) + ([] : List String).length = demoRows.length := by
  have h1 : (process_file allOkEnv demoRows "r" "p" none).1 = Except.ok (2, []) := rfl
  have h2 : process_file allOkEnv demoRows "r" "p" none =
      (Except.ok (2, []), (process_file allOkEnv demoRows "r" "p" none).2) := by
    rw [← h1]
  exact c2_ledger_completeness allOkEnv demoRows "r" "p" none 2 []
    (process_file allOkEnv demoRows "r" "p" none).2 h2

/-- C3: progress-callback contract and ordering. Every run of process_file
with a callback that returns a ledger has emitted exactly one progress
event per row, with 1-based current-row arguments ascending 1..total in
row order and the row labels, and the error list is an order-preserving
selection of per-row failure entries. -/
theorem c3_progress_contract (env : Env) (rows : List Row) (reg pwd : String) (f : Callback)
    (sc : Nat) (errs : List String) (s' : St)
    (h : process_file env rows reg pwd (some f) = (Except.ok (sc, errs), s')) :
    progressEvents s'.events =
      (List.range rows.length).map
        (fun k => Event.progress (k + 1) rows.length (productLabel (rows.getD k []) k)) ∧
    LedgerMatches rows 0 errs := by
  cases hl : env.launch with
  | error e =>
    rw [process_file, hl] at h
    cases h
  | ok u =>
    rw [process_file, hl] at h
    cases hstep : step (loginPhase env reg pwd St.init)
        (fun _ s => rowLoop env (some f) rows.length rows 0 (0, []) s) with
    | mk res s1 =>
      rw [hstep] at h
      have h2 : (res, teardown env s1) = (Except.ok (sc, errs), s') := h
      injection h2 with h3 h4
      subst h3
      cases hlp : loginPhase env reg pwd St.init with
      | mk r s0 =>
        rw [hlp] at hstep
        cases r with
        | error e => simp [step] at hstep
        | ok u2 =>
          simp [step] at hstep
          constructor
          · obtain ⟨δ1, hδ1, hp1⟩ := loginPhase_emits env reg pwd St.init
            rw [hlp] at hδ1
            have hs0 : progressEvents s0.events = [] := by
              rw [Emits] at hδ1
              have he : s0.events = δ1 := by simpa [St.init] using hδ1
              rw [he, progressEvents_of_plain hp1]
            have hloop :=
              rowLoop_ok_progress env f rows.length rows 0 (0, []) s0 (sc, errs) s1 hstep
            rw [← h4, teardown_eq]
            simp only [St.emit]
            rw [progressEvents_append, hloop, hs0]
            have hq : progressEvents [Event.quit] = [] := rfl
            rw [hq, progressList_eq]
            simp only [List.nil_append, List.append_nil]
            apply List.map_congr_left
            intro k hk
            have e1 : 0 + 1 + k = k + 1 := by omega
            have e2 : 0 + k = k := by omega
            rw [e1, e2]
          · obtain ⟨suffix, hsuf, hled⟩ :=
              rowLoop_ok_ledger env (some f) rows.length rows 0 (0, []) s0 sc errs s1 hstep
            have he : errs = suffix := by simpa using hsuf
            rw [he]
            exact hled

/-- Witness for C3: an all-success run over the two sample rows emits the
two expected progress events and an empty ledger selection. -/
theorem c3_witness :
    progressEvents (process_file allOkEnv demoRows "r" "p" (some okCb)).2.events =
      (List.range demoRows.length).map
        (fun k => Event.progress (k + 1) demoRows.length (productLabel (demoRows.getD k []) k)) ∧
    LedgerMatches demoRows 0 [] := by
  have h1 : (process_file allOkEnv demoRows "r" "p" (some okCb)).1 = Except.ok (2, []) := rfl
  have h2 : process_file allOkEnv demoRows "r" "p" (some okCb) =
      (Except.ok (2, []), (process_file allOkEnv demoRows "r" "p" (some okCb)).2) := by
    rw [← h1]
  exact c3_progress_contract allOkEnv demoRows "r" "p" okCb 2 []
    (process_file allOkEnv demoRows "r" "p" (some okCb)).2 h2

/-- C4: missing-value skip. Within one row fill over the static mapping,
a field invocation for a target field always carries exactly the present
source value of its column (so no empty or nan text is ever typed), and
when the fill completes without exception, the target field was invoked
if and only if its source value is present under the inclusion policy. -/
theorem c4_missing_value_skip (env : Env) (row : Row) (s : St) (webField excelCol : String)
    (hmem : (webField, excelCol) ∈ FIELD_MAPPINGS) :
    (∀ r s', fillFields env row FIELD_MAPPINGS s = (r, s') →
      ∃ δ, Emits s s' δ ∧
        ∀ v, Event.typeInto webField v ∈ δ → fieldValue (rowGet row excelCol) = some v) ∧
    (∀ s', fillFields env row FIELD_MAPPINGS s = (Except.ok (), s') →
      ∃ δ, Emits s s' δ ∧
        ((∃ v, Event.typeInto webField v ∈ δ) ↔
          (fieldValue (rowGet row excelCol)).isSome = true)) := by
  obtain ⟨δ, hδ, hp, hA, hB⟩ := fillFields_emits env row FIELD_MAPPINGS s
  constructor
  · intro r s' hfill
    rw [hfill] at hδ
    refine ⟨δ, hδ, ?_⟩
    intro v hv
    obtain ⟨c, hc, hval⟩ := hA webField v hv
    have hcc : c = excelCol :=
      key_unique_of_nodup FIELD_MAPPINGS FIELD_MAPPINGS_keys_nodup hc hmem
    rw [← hcc]
    exact hval
  · intro s' hfill
    have hok : (fillFields env row FIELD_MAPPINGS s).1 = Except.ok () := by rw [hfill]
    rw [hfill] at hδ
    refine ⟨δ, hδ, ?_, ?_⟩
    · rintro ⟨v, hv⟩
      obtain ⟨c, hc, hval⟩ := hA webField v hv
      have hcc : c = excelCol :=
        key_unique_of_nodup FIELD_MAPPINGS FIELD_MAPPINGS_keys_nodup hc hmem
      rw [← hcc, hval]
      rfl
    · intro hsome
      obtain ⟨v, hval⟩ := Option.isSome_iff_exists.mp hsome
      exact ⟨v, hB hok webField excelCol hmem v hval⟩

/-- Witness for C4 on the sample row whose ProductCIBCode cell is a
missing value. -/
theorem c4_witness :
    (∃ δ, Emits St.init (fillFields allOkEnv demoRow FIELD_MAPPINGS St.init).2 δ ∧
      ∀ v, Event.typeInto "ProductCIBCode" v ∈ δ →
        fieldValue (rowGet demoRow "ProductCIBCode") = some v) ∧
    (∃ δ, Emits St.init (fillFields allOkEnv demoRow FIELD_MAPPINGS St.init).2 δ ∧
      ((∃ v, Event.typeInto "ProductCIBCode" v ∈ δ) ↔
        (fieldValue (rowGet demoRow "ProductCIBCode")).isSome = true)) := by
  have h1 : (fillFields allOkEnv demoRow FIELD_MAPPINGS St.init).1 = Except.ok () := rfl
  have h2 : fillFields allOkEnv demoRow FIELD_MAPPINGS St.init =
      (Except.ok (), (fillFields allOkEnv demoRow FIELD_MAPPINGS St.init).2) := by
    rw [← h1]
  refine ⟨(c4_missing_value_skip allOkEnv demoRow St.init "ProductCIBCode" "ProductCIBCode"
      (by decide)).1
      (Except.ok ())
      (fillFields allOkEnv demoRow FIELD_MAPPINGS St.init).2 h2,
    (c4_missing_value_skip allOkEnv demoRow St.init "ProductCIBCode" "ProductCIBCode"
      (by decide)).2
      (fillFields allOkEnv demoRow FIELD_MAPPINGS St.init).2 h2⟩

/-- Table refuting C5: row 3 (0-based index 2) is the first row with both
credential fields non-empty, while row 1 lacks the password and row 2
lacks the registration number. -/
def c5Rows : List Row :=
  [[("RegistrationNo", some "A"), ("Password", none)],
   [("RegistrationNo", none), ("Password", some "Q")],
   [("RegistrationNo", some "B"), ("Password", some "P")]]

/-- C5 counterexample: on c5Rows the first row with both fields non-empty
is row 3 with values B and P, yet the scan of validate_excel returns the
mixed pair (A, Q) accumulated from rows 1 and 2 — not row 3 values — so
the claim as stated is false. -/
theorem c5_counterexample :
    credVal (rowGet (c5Rows.getD 0 []) "RegistrationNo") = some "A" ∧
    credVal (rowGet (c5Rows.getD 0 []) "Password") = none ∧
    credVal (rowGet (c5Rows.getD 1 []) "RegistrationNo") = none ∧
    credVal (rowGet (c5Rows.getD 1 []) "Password") = some "Q" ∧
    credVal (rowGet (c5Rows.getD 2 []) "RegistrationNo") = some "B" ∧
    credVal (rowGet (c5Rows.getD 2 []) "Password") = some "P" ∧
    extract_credentials c5Rows = some ("A", "Q") ∧
    (("A" : String), ("Q" : String)) ≠ (("B" : String), ("P" : String)) := by
  refine ⟨?_, ?_, ?_, ?_, ?_, ?_, ?_, ?_⟩ <;> decide

/-- C5 amended: the scan accumulates each credential field separately and
stops at the first row after which both have been seen; when the rows
before the first row with both fields non-empty do not collectively supply
both fields, that row supplies both credentials (stripped). -/
theorem c5_amended_credential_extraction (pre post : List Row) (r : Row) (a b : String)
    (hpre : (∀ row ∈ pre, credVal (rowGet row "RegistrationNo") = none) ∨
            (∀ row ∈ pre, credVal (rowGet row "Password") = none))
    (ha : credVal (rowGet r "RegistrationNo") = some a)
    (hb : credVal (rowGet r "Password") = some b) :
    extract_credentials (pre ++ r :: post) = some (a, b) := by
  rcases hpre with hx | hx
  · rw [extract_credentials, scanCreds_no_reg pre hx r post none a b ha hb]
  · rw [extract_credentials, scanCreds_no_pwd pre hx r post none a b ha hb]

/-- Witness for the amended C5: one fully blank row before the row that
carries both credentials. -/
theorem c5_witness :
    extract_credentials ([[("RegistrationNo", none), ("Password", none)]] ++
      [("RegistrationNo", some "R2"), ("Password", some "S2")] :: []) = some ("R2", "S2") :=
  c5_amended_credential_extraction [[("RegistrationNo", none), ("Password", none)]] []
    [("RegistrationNo", some "R2"), ("Password", some "S2")] "R2" "S2"
    (Or.inl (by decide)) (by decide) (by decide)

/-- C6: fatal short-circuit and mutual exclusivity. A run whose post-login
marker wait keeps timing out, whose login-form find keeps timing out, or
whose very first navigation fails, raises that error with zero progress
events, no field invocation beyond the two credential fields, and exactly
one teardown; a run whose driver launch fails raises before anything at
all. In each case the result is an error, so no ledger is returned. -/
theorem c6_fatal_short_circuit (rows : List Row) (reg pwd : String) (cb : Option Callback)
    (e : Exc) :
    ((process_file (prefixOkEnv 7) rows reg pwd cb).1 = Except.error Exc.timeout ∧
      progressEvents (process_file (prefixOkEnv 7) rows reg pwd cb).2.events = [] ∧
      quitEvents (process_file (prefixOkEnv 7) rows reg pwd cb).2.events = [Event.quit] ∧
      (∀ w v, Event.typeInto w v ∈ (process_file (prefixOkEnv 7) rows reg pwd cb).2.events →
        (w = "RegistrationNo" ∧ v = reg) ∨ (w = "Password" ∧ v = pwd))) ∧
    ((process_file (prefixOkEnv 2) rows reg pwd cb).1 = Except.error Exc.timeout ∧
      progressEvents (process_file (prefixOkEnv 2) rows reg pwd cb).2.events = [] ∧
      quitEvents (process_file (prefixOkEnv 2) rows reg pwd cb).2.events = [Event.quit] ∧
      (∀ w v, Event.typeInto w v ∈ (process_file (prefixOkEnv 2) rows reg pwd cb).2.events →
        (w = "RegistrationNo" ∧ v = reg) ∨ (w = "Password" ∧ v = pwd))) ∧
    ((process_file (constFailEnv e) rows reg pwd cb).1 = Except.error e ∧
      progressEvents (process_file (constFailEnv e) rows reg pwd cb).2.events = [] ∧
      quitEvents (process_file (constFailEnv e) rows reg pwd cb).2.events = [Event.quit] ∧
      (∀ w v, Event.typeInto w v ∈ (process_file (constFailEnv e) rows reg pwd cb).2.events →
        (w = "RegistrationNo" ∧ v = reg) ∨ (w = "Password" ∧ v = pwd))) ∧
    process_file (launchFailEnv e) rows reg pwd cb = (Except.error e, St.init) := by
  refine ⟨?_, ?_, ?_, launchFail_run rows reg pwd cb e⟩
  · exact fatal_prelude_run (prefixOkEnv 7) rows reg pwd cb Exc.timeout rfl rfl
  · exact fatal_prelude_run (prefixOkEnv 2) rows reg pwd cb Exc.timeout rfl rfl
  · exact fatal_prelude_run (constFailEnv e) rows reg pwd cb e rfl rfl

/-- C7: teardown guarantee. In every run whose driver launch succeeded,
the teardown invocation appears exactly once in the trace; teardown
itself always returns normally whatever driver.quit did; and the result
of the run is exactly the result of its body, never replaced by
teardown. -/
theorem c7_teardown_guarantee (env : Env) (rows : List Row) (reg pwd : String)
    (cb : Option Callback) (hl : env.launch = Except.ok ()) :
    quitEvents (process_file env rows reg pwd cb).2.events = [Event.quit] ∧
    (∀ envq s, teardown envq s = s.emit Event.quit) ∧
    (process_file env rows reg pwd cb).1 =
      (step (loginPhase env reg pwd St.init)
        (fun _ s => rowLoop env cb rows.length rows 0 (0, []) s)).1 := by
  refine ⟨?_, teardown_eq, ?_⟩
  · cases hstep : step (loginPhase env reg pwd St.init)
        (fun _ s => rowLoop env cb rows.length rows 0 (0, []) s) with
    | mk res s1 =>
      have hrun : process_file env rows reg pwd cb = (res, teardown env s1) := by
        rw [process_file, hl, hstep]
      rw [hrun, teardown_eq]
      simp only [St.emit]
      rw [quitEvents_append]
      obtain ⟨δ, hδ, hq⟩ := run_body_quitFree env rows reg pwd cb
      rw [hstep] at hδ
      rw [Emits] at hδ
      have he : s1.events = δ := by simpa [St.init] using hδ
      rw [he, quitEvents_of_quitFree hq]
      simp [quitEvents, Event.isQuit]
  · cases hstep : step (loginPhase env reg pwd St.init)
        (fun _ s => rowLoop env cb rows.length rows 0 (0, []) s) with
    | mk res s1 =>
      rw [process_file, hl, hstep]

/-- Witness for C7 on an all-success run. -/
theorem c7_witness :
    quitEvents (process_file allOkEnv demoRows "r" "p" none).2.events = [Event.quit] :=
  (c7_teardown_guarantee allOkEnv demoRows "r" "p" none rfl).1

/-- C8: bounded-retry policy. Under a persistently failing oracle with a
transient failure class, each primitive makes exactly retries attempts
with a 1-second backoff between them and re-raises the underlying
failure; and for each primitive a success at any attempt j below the
retry count returns immediately after j+1 attempts with the element
(find) or a success result (click and type). -/
theorem c8_bounded_retry (env : Env) (loc text : String) (t : Nat) (s : St) (e : Exc) :
    (findCaught e = true → (∀ k, env.attemptResult k = Except.error e) →
      ∀ m, safe_find_element env loc t (m + 1) s =
        (Except.error e,
          ⟨s.tick + m + 1, s.events ++ retryTrace loc m ++ [Event.attempt loc]⟩)) ∧
    (clickCaught e = true → (∀ k, env.attemptResult k = Except.error e) →
      ∀ m, safe_click env loc t (m + 1) s =
        (Except.error e,
          ⟨s.tick + m + 1, s.events ++ retryTrace loc m ++ [Event.attempt loc]⟩)) ∧
    (clickCaught e = true → (∀ k, env.attemptResult k = Except.error e) →
      ∀ m, safe_send_keys env loc text true t (m + 1) s =
        (Except.error e,
          ⟨s.tick + m + 1,
            (s.events ++ [Event.typeInto loc text]) ++ retryTrace loc m ++
              [Event.attempt loc]⟩)) ∧
    (findCaught e = true →
      ∀ j n, (∀ k, k < j → env.attemptResult (s.tick + k) = Except.error e) →
        env.attemptResult (s.tick + j) = Except.ok () → j < n →
        safe_find_element env loc t n s =
          (Except.ok (some ()),
            ⟨s.tick + j + 1, s.events ++ retryTrace loc j ++ [Event.attempt loc]⟩)) ∧
    (clickCaught e = true →
      ∀ j n, (∀ k, k < j → env.attemptResult (s.tick + k) = Except.error e) →
        env.attemptResult (s.tick + j) = Except.ok () → j < n →
        safe_click env loc t n s =
          (Except.ok (some true),
            ⟨s.tick + j + 1, s.events ++ retryTrace loc j ++
              [Event.attempt loc, Event.click loc]⟩)) ∧
    (clickCaught e = true →
      ∀ j n, (∀ k, k < j → env.attemptResult (s.tick + k) = Except.error e) →
        env.attemptResult (s.tick + j) = Except.ok () → j < n →
        safe_send_keys env loc text true t n s =
          (Except.ok (some true),
            ⟨s.tick + j + 1,
              (s.events ++ [Event.typeInto loc text]) ++ retryTrace loc j ++
                [Event.attempt loc, Event.clearField loc, Event.sleep 100,
                 Event.sendKeys loc text]⟩)) :=
  ⟨fun hc hf m => find_persistent_fail env loc t e hc hf m s,
   fun hc hf m => click_persistent_fail env loc t e hc hf m s,
   fun hc hf m =>
     sendAttempts_persistent_fail env loc text true t e hc hf m
       (s.emit (Event.typeInto loc text)),
   fun hc j n hb hj hn => find_success_at env loc t e hc j n s hb hj hn,
   fun hc j n hb hj hn => click_success_at env loc t e hc j n s hb hj hn,
   fun hc j n hb hj hn =>
     sendAttempts_success_at env loc text t e hc j n
       (s.emit (Event.typeInto loc text)) hb hj hn⟩

/-- Witness for C8 at concrete environments: three exhausted attempts
with two backoffs for each primitive, and for each primitive a success at
the second attempt (after one real transient failure and one backoff). -/
theorem c8_witness :
    safe_find_element (constFailEnv Exc.timeout) "x" 30 3 St.init =
      (Except.error Exc.timeout,
        ⟨St.init.tick + 2 + 1, St.init.events ++ retryTrace "x" 2 ++ [Event.attempt "x"]⟩) ∧
    safe_click (constFailEnv Exc.stale) "x" 30 3 St.init =
      (Except.error Exc.stale,
        ⟨St.init.tick + 2 + 1, St.init.events ++ retryTrace "x" 2 ++ [Event.attempt "x"]⟩) ∧
    safe_send_keys (constFailEnv Exc.stale) "x" "v" true 30 3 St.init =
      (Except.error Exc.stale,
        ⟨St.init.tick + 2 + 1,
          (St.init.events ++ [Event.typeInto "x" "v"]) ++ retryTrace "x" 2 ++
            [Event.attempt "x"]⟩) ∧
    safe_find_element (failPrefixEnv 1 Exc.timeout) "x" 30 3 St.init =
      (Except.ok (some ()),
        ⟨St.init.tick + 1 + 1, St.init.events ++ retryTrace "x" 1 ++ [Event.attempt "x"]⟩) ∧
    safe_click (failPrefixEnv 1 Exc.stale) "x" 30 3 St.init =
      (Except.ok (some true),
        ⟨St.init.tick + 1 + 1, St.init.events ++ retryTrace "x" 1 ++
          [Event.attempt "x", Event.click "x"]⟩) ∧
    safe_send_keys (failPrefixEnv 1 Exc.notInteractable) "x" "v" true 30 3 St.init =
      (Except.ok (some true),
        ⟨St.init.tick + 1 + 1,
          (St.init.events ++ [Event.typeInto "x" "v"]) ++ retryTrace "x" 1 ++
            [Event.attempt "x", Event.clearField "x", Event.sleep 100,
             Event.sendKeys "x" "v"]⟩) :=
  ⟨(c8_bounded_retry (constFailEnv Exc.timeout) "x" "v" 30 St.init Exc.timeout).1
      rfl (fun k => rfl) 2,
   (c8_bounded_retry (constFailEnv Exc.stale) "x" "v" 30 St.init Exc.stale).2.1
      rfl (fun k => rfl) 2,
   (c8_bounded_retry (constFailEnv Exc.stale) "x" "v" 30 St.init Exc.stale).2.2.1
      rfl (fun k => rfl) 2,
   (c8_bounded_retry (failPrefixEnv 1 Exc.timeout) "x" "v" 30 St.init Exc.timeout).2.2.2.1
      rfl 1 3
      (fun k hk => by
        have hk0 : k = 0 := by omega
        subst hk0
        rfl)
      rfl (by decide),
   (c8_bounded_retry (failPrefixEnv 1 Exc.stale) "x" "v" 30 St.init Exc.stale).2.2.2.2.1
      rfl 1 3
      (fun k hk => by
        have hk0 : k = 0 := by omega
        subst hk0
        rfl)
      rfl (by decide),
   (c8_bounded_retry (failPrefixEnv 1 Exc.notInteractable) "x" "v" 30 St.init
      Exc.notInteractable).2.2.2.2.2
      rfl 1 3
      (fun k hk => by
        have hk0 : k = 0 := by omega
        subst hk0
        rfl)
      rfl (by decide)⟩

/-- Row whose ProductName cell is a pandas missing value. -/
def c9Row : Row := [("ProductName", none), ("ProductCIBCode", some "X1")]

/-- C9 evidence (code bug): for a validated row whose ProductName value is
missing, line 230 computes the label str(nan) = nan — the f-string
default of Series.get never fires because the ProductName column always
exists after validation — so the recorded label is nan and not Row 1, and
that label is what the progress callback receives. -/
theorem c9_label_on_missing_name :
    productLabel c9Row 0 = "nan" ∧
    ("nan" : String) ≠ "Row 1" ∧
    progressEvents (rowLoop allOkEnv (some okCb) 1 [c9Row] 0 (0, []) St.init).2.events =
      [Event.progress 1 1 "nan"] := by
  refine ⟨rfl, by decide, ?_⟩
  rfl

/-- C10: a progress callback that raises is invoked outside the row-level
handler, so its exception aborts the loop: the run yields that error and
no ledger, exactly m progress events were emitted (rows after m were
never attempted), and teardown still happens exactly once. -/
theorem c10_callback_exception_propagates (env : Env) (rows : List Row) (reg pwd : String)
    (g : Callback) (m : Nat) (e : Exc) (s0 : St)
    (hgm : ∀ t l, g m t l = Except.error e)
    (hglt : ∀ j t l, j < m → g j t l = Except.ok ())
    (hm1 : 1 ≤ m) (hm2 : m ≤ rows.length)
    (hl : env.launch = Except.ok ())
    (hlogin : loginPhase env reg pwd St.init = (Except.ok (), s0)) :
    (process_file env rows reg pwd (some g)).1 = Except.error e ∧
    (progressEvents (process_file env rows reg pwd (some g)).2.events).length = m ∧
    quitEvents (process_file env rows reg pwd (some g)).2.events = [Event.quit] := by
  obtain ⟨hres, δ2, hδ2, hq2, hlen⟩ :=
    rowLoop_cb_fails_at env g rows.length m e hgm hglt rows 0 (0, []) s0 (by omega) (by omega)
  obtain ⟨δ1, hδ1, hp1⟩ := loginPhase_emits env reg pwd St.init
  rw [hlogin] at hδ1
  cases hrl : rowLoop env (some g) rows.length rows 0 (0, []) s0 with
  | mk res s1 =>
    rw [hrl] at hres hδ2
    have hstep : step (loginPhase env reg pwd St.init)
        (fun _ s => rowLoop env (some g) rows.length rows 0 (0, []) s) = (res, s1) := by
      simp [step, hlogin, hrl]
    have hrun : process_file env rows reg pwd (some g) = (res, teardown env s1) := by
      rw [process_file, hl, hstep]
    rw [hrun, teardown_eq]
    have hev0 : s0.events = δ1 := by
      rw [Emits] at hδ1
      simpa [St.init] using hδ1
    have hev1 : s1.events = δ1 ++ δ2 := by
      rw [Emits] at hδ2
      rw [hδ2, hev0]
    refine ⟨hres, ?_, ?_⟩
    · simp only [St.emit]
      rw [hev1, progressEvents_append, progressEvents_append,
        progressEvents_of_plain hp1]
      have hq : progressEvents [Event.quit] = [] := rfl
      rw [hq]
      simp only [List.nil_append, List.append_nil, List.length_append]
      omega
    · simp only [St.emit]
      rw [hev1, quitEvents_append, quitEvents_append, quitEvents_of_plain hp1,
        quitEvents_of_quitFree hq2]
      simp [quitEvents, Event.isQuit]

/-- Callback that raises exactly on the first row. -/
def cbFail1 : Callback :=
  fun j _ _ => if j = 1 then Except.error (Exc.other "cb") else Except.ok ()

/-- Witness for C10: the callback raising on row 1 of the two-row table
aborts the run after one progress event, with one teardown. -/
theorem c10_witness :
    (process_file allOkEnv demoRows "r" "p" (some cbFail1)).1 =
      Except.error (Exc.other "cb") ∧
    (progressEvents (process_file allOkEnv demoRows "r" "p" (some cbFail1)).2.events).length
      = 1 ∧
    quitEvents (process_file allOkEnv demoRows "r" "p" (some cbFail1)).2.events =
      [Event.quit] :=
  c10_callback_exception_propagates allOkEnv demoRows "r" "p" cbFail1 1 (Exc.other "cb")
    (loginPhase allOkEnv "r" "p" St.init).2
    (fun t l => rfl)
    (fun j t l hj => by
      have hj0 : j = 0 := by omega
      subst hj0
      rfl)
    (by decide) (by decide) rfl rfl

end Agrobot
